import Mathlib

/-
Verification of the easyconfig multidimensional format resolver
(easybuild/framework/easyconfig/format/format.py) and the easyconfig style
checker (easybuild/framework/easyconfig/style.py).

The Python code is shallowly embedded: dictionaries become insertion-ordered
association lists, fatal log.error calls become an Except error monad, and
the external collaborators (version predicates, the ordered predicate store,
the dependency converter, the pep8 line check) are modelled from their
consumed contracts as documented in the specification.
-/

set_option autoImplicit false

namespace EBFormat

universe u v

/-! ## Association-list dictionaries (insertion ordered, Python-dict style) -/

/-- Lookup in an association list, first-match (keys kept unique by `dset`). -/
def dlookup {α : Type u} {β : Type v} [DecidableEq α] : List (α × β) → α → Option β
  | [], _ => none
  | (k, v) :: rest, a => if k = a then some v else dlookup rest a

/-- Python dict assignment: replace the value in place when the key exists,
append at the end otherwise. -/
def dset {α : Type u} {β : Type v} [DecidableEq α] : List (α × β) → α → β → List (α × β)
  | [], a, b => [(a, b)]
  | (k, v) :: rest, a, b => if k = a then (a, b) :: rest else (k, v) :: dset rest a b

/-- Python `dict.pop`: remove an entry, returning its value and the rest. -/
def dpop {α : Type u} {β : Type v} [DecidableEq α] : List (α × β) → α → Option (β × List (α × β))
  | [], _ => none
  | (k, v) :: rest, a =>
    if k = a then some (v, rest)
    else (dpop rest a).map (fun p => (p.1, (k, v) :: p.2))

/-- Python `dst.update(src)`: assign every entry of `src` into `dst` in order. -/
def dupdate {α : Type u} {β : Type v} [DecidableEq α] (dst src : List (α × β)) : List (α × β) :=
  src.foldl (fun d kv => dset d kv.1 kv.2) dst

/-- Membership test with decidable equality (Python `in` for dict keys / lists). -/
def memq {α : Type u} [DecidableEq α] (a : α) : List α → Bool
  | [] => false
  | b :: rest => a = b || memq a rest

/-! ## Versions and version predicates

`EasyVersion` values are dotted version numbers; comparison is lexicographic
on the numeric components.  The predicate types themselves live in
`format/version.py`, outside the embedded sources: their consumed contract
(construct from string with an explicit invalid state, `test`, conflict
detection in an ordered store) is modelled from the specification. -/

/-- A version is the list of its dotted numeric components (`"2.5"` is `[2, 5]`). -/
abbrev EVersion := List Nat

/-- Lexicographic strict order on versions. -/
def verLt : EVersion → EVersion → Bool
  | [], [] => false
  | [], _ :: _ => true
  | _ :: _, [] => false
  | a :: as, b :: bs => if a < b then true else if b < a then false else verLt as bs

/-- Lexicographic order, non-strict. -/
def verLe (a b : EVersion) : Bool := verLt a b || a = b

/-! Small character-level string helpers (`str.split`, `str.strip`, decimal
conversion), written structurally recursive so that every parse evaluates. -/

/-- `str.split(sep)` on the character list (Python semantics: an empty string
gives one empty field). -/
def splitOnChar (sep : Char) : List Char → List (List Char)
  | [] => [[]]
  | c :: rest =>
    match splitOnChar sep rest with
    | [] => [[]]
    | g :: gs => if c = sep then [] :: g :: gs else (c :: g) :: gs

/-- Python whitespace (`\s`, and the default `str.strip` set). -/
def isPySpace (c : Char) : Bool :=
  c = ' ' || c = '\t' || c = '\n' || c = '\x0d' || c = '\x0b' || c = '\x0c'

/-- Python `str.strip()`. -/
def trimChars (cs : List Char) : List Char :=
  ((cs.dropWhile isPySpace).reverse.dropWhile isPySpace).reverse

/-- The numeric value of a decimal digit character. -/
def digitVal (c : Char) : Option Nat :=
  if 48 ≤ c.toNat && c.toNat ≤ 57 then some (c.toNat - 48) else none

/-- Parse a non-empty decimal digit string. -/
def charsToNat : List Char → Option Nat
  | [] => none
  | cs => go cs 0
where
  /-- Fold the digits left to right. -/
  go : List Char → Nat → Option Nat
    | [], acc => some acc
    | c :: rest, acc =>
      match digitVal c with
      | some d => go rest (acc * 10 + d)
      | none => none

/-- Decimal digits of a natural number, most significant first (fuel-driven
so that it evaluates definitionally). -/
def natToChars : Nat → Nat → List Char
  | 0, _ => []
  | fuel + 1, n =>
    if n < 10 then [Char.ofNat (48 + n)]
    else natToChars fuel (n / 10) ++ [Char.ofNat (48 + n % 10)]

/-- Render a natural number in decimal. -/
def natToString (n : Nat) : String := String.mk (natToChars (n + 1) n)

/-- Render a version back to its dotted string form. -/
def verToString : EVersion → String
  | [] => ""
  | [n] => natToString n
  | n :: rest => natToString n ++ "." ++ verToString rest

/-- The comparison operators a version predicate can carry. -/
inductive VOp where
  | eq | gt | ge | lt | le
deriving DecidableEq

/-- Modelled from the spec: a version predicate is an operator plus a version
value, testable against concrete versions (`VersionOperator`). -/
structure VersionOperator where
  op : VOp
  ver : EVersion
deriving DecidableEq

/-- Modelled from the spec: `VersionOperator.test`. -/
def vopTest (p : VersionOperator) (x : EVersion) : Bool :=
  match p.op with
  | .eq => x = p.ver
  | .gt => verLt p.ver x
  | .ge => verLt p.ver x || x = p.ver
  | .lt => verLt x p.ver
  | .le => verLt x p.ver || x = p.ver

/-- Modelled from the spec: a toolchain version predicate is a toolchain name
plus a version predicate (`ToolchainVersionOperator`). -/
structure ToolchainVersionOperator where
  tc_name : String
  versop : VersionOperator
deriving DecidableEq

/-- Modelled from the spec: `ToolchainVersionOperator.test(name, version)`. -/
def tcopTest (p : ToolchainVersionOperator) (name : String) (x : EVersion) : Bool :=
  name = p.tc_name && vopTest p.versop x

/-- Modelled from the spec: range inclusion between two predicates, computed
symbolically on the operator pair (an exact-equality range is included when
the other predicate accepts its value; two ranges open in the same direction
nest by endpoint comparison; oppositely-directed ranges never nest). -/
def vopSubset (a b : VersionOperator) : Bool :=
  match a.op, b.op with
  | .eq, _ => vopTest b a.ver
  | _, .eq => false
  | .gt, .gt => verLe b.ver a.ver
  | .gt, .ge => verLe b.ver a.ver
  | .ge, .gt => verLt b.ver a.ver
  | .ge, .ge => verLe b.ver a.ver
  | .lt, .lt => verLe a.ver b.ver
  | .lt, .le => verLe a.ver b.ver
  | .le, .lt => verLt a.ver b.ver
  | .le, .le => verLe a.ver b.ver
  | _, _ => false

/-- Modelled from the spec: whether the ranges of two predicates can both hold
for some version, computed symbolically on endpoints. -/
def vopOverlap (a b : VersionOperator) : Bool :=
  match a.op, b.op with
  | .eq, _ => vopTest b a.ver
  | _, .eq => vopTest a b.ver
  | .gt, .gt => true
  | .gt, .ge => true
  | .ge, .gt => true
  | .ge, .ge => true
  | .lt, .lt => true
  | .lt, .le => true
  | .le, .lt => true
  | .le, .le => true
  | .gt, .lt => verLt a.ver b.ver
  | .gt, .le => verLt a.ver b.ver
  | .ge, .lt => verLt a.ver b.ver
  | .ge, .le => verLe a.ver b.ver
  | .lt, .gt => verLt b.ver a.ver
  | .le, .gt => verLt b.ver a.ver
  | .lt, .ge => verLt b.ver a.ver
  | .le, .ge => verLe b.ver a.ver

/-- Modelled from the spec: two distinct predicates conflict when their ranges
overlap without one being a refinement of the other. -/
def vopConflict (a b : VersionOperator) : Bool :=
  !(a = b : Bool) && vopOverlap a b && !vopSubset a b && !vopSubset b a

/-! ## Errors

The fatal `log.error` calls of the source become values of `EBError`; the
spec taxonomy (StructuralError, RangeConflictError, UnsupportedRequestError)
is kept, with structured payloads where a claim inspects them. -/

/-- Fatal error taxonomy of the resolver. -/
inductive EBError where
  | structural : String → EBError
  | rangeConflict : VersionOperator → VersionOperator → EBError
  | unsupportedVersion : String → List (Option String) → EBError
  | unsupportedToolchain : String → List String → EBError
  | unsupportedToolchainVersion : String → String → List (Option String) → EBError
deriving DecidableEq

/-! ## The ordered predicate store

`OrderedVersionOperators` lives in `format/version.py`, outside the embedded
sources.  Modelled from the spec: an insertion-ordered mapping from predicate
to accumulated data which keeps the most specific predicate first, and fails
with a range conflict when a newly inserted predicate overlaps an existing one
without either being a refinement of the other. -/

/-- A key of the typed section tree: a literal marker / plain key, a version
predicate, or a toolchain version predicate. -/
inductive NKey where
  | str : String → NKey
  | vop : VersionOperator → NKey
  | tcop : ToolchainVersionOperator → NKey
deriving DecidableEq

/-- A parsed dependency (modelled from the spec: name and version, both
required; `None` parse results are explicit). -/
structure Dependency where
  name : Option String
  version : Option String
deriving DecidableEq

/-- A scalar value stored in the typed tree or a squash result. -/
inductive Value where
  | str : String → Value
  | strList : List String → Value
  | vops : List VersionOperator → Value
  | tcops : List ToolchainVersionOperator → Value
  | deps : List Dependency → Value
  | tcDict : String → String → Value
deriving DecidableEq

/-- A flat squash result: a Python dict from key to scalar value. -/
abbrev ResMap := List (NKey × Value)

/-- Modelled from the spec: the ordered predicate store.  `versops` is kept
most-specific-first; `datamap` carries the accumulated data per predicate. -/
structure OrderedVersionOperators where
  versops : List VersionOperator
  datamap : List (VersionOperator × ResMap)
deriving DecidableEq

/-- A fresh, empty ordered store. -/
def ovoEmpty : OrderedVersionOperators := ⟨[], []⟩

/-- Modelled from the spec: insert a predicate keeping the most specific
first; signal a range conflict when it overlaps an existing predicate without
refinement either way. -/
def ovoInsert (v : VersionOperator) : List VersionOperator → Except EBError (List VersionOperator)
  | [] => .ok [v]
  | b :: rest =>
    if vopConflict v b then .error (.rangeConflict v b)
    else if vopSubset v b then .ok (v :: b :: rest)
    else do
      let r ← ovoInsert v rest
      .ok (b :: r)

/-- Modelled from the spec: `OrderedVersionOperators.add(versop, data, update)`.
A predicate already present only has its data replaced (or merged, when
`update` holds); a new predicate is inserted in specificity order with
conflict detection. -/
def ovoAdd (o : OrderedVersionOperators) (v : VersionOperator) (data : ResMap)
    (update : Bool) : Except EBError OrderedVersionOperators :=
  if memq v o.versops then
    let newdata :=
      if update then
        match dlookup o.datamap v with
        | some old => dupdate old data
        | none => data
      else data
    .ok ⟨o.versops, dset o.datamap v newdata⟩
  else do
    let vs ← ovoInsert v o.versops
    .ok ⟨vs, dset o.datamap v data⟩

/-- Modelled from the spec: `OrderedVersionOperators.get_data`. -/
def ovoGetData (o : OrderedVersionOperators) (v : VersionOperator) : ResMap :=
  (dlookup o.datamap v).getD []

/-! ## The generic parsed section tree (ConfigObj input) -/

/-- A value of the generic section tree fed to the parser: a nested section,
a plain string, or a comma-split list of strings. -/
inductive CVal where
  | sec : List (String × CVal) → CVal
  | str : String → CVal
  | list : List String → CVal

/-! ## The typed section tree (`NestedDict` contents) -/

/-- A node value of the typed section tree: either a scalar value or a nested
level (the entry list of a `NestedDict`). -/
inductive NTree where
  | val : Value → NTree
  | tree : List (NKey × NTree) → NTree

/-- The parsed model: the typed tree with `DEFAULT` hoisted and `SUPPORTED`
split off (`EBConfigObj` state after `parse`). -/
structure EBConfigObj where
  sections : List (NKey × NTree)
  default : List (NKey × NTree)
  supported : List (NKey × NTree)

/-! ## Predicate parsing from section-marker strings

Modelled from the spec: constructing a predicate from a string yields an
explicit invalid state (`none`) on unparseable input, never an exception; a
bare version defaults to exact equality (the representative form the first
supported entry is expected to have). -/

/-- Parse one dotted version string. -/
def parseVersion (s : String) : Option EVersion :=
  (splitOnChar '.' s.toList).mapM charsToNat

/-- Parse a comparison operator token. -/
def parseOp (s : String) : Option VOp :=
  if s = "==" then some .eq
  else if s = ">" then some .gt
  else if s = ">=" then some .ge
  else if s = "<" then some .lt
  else if s = "<=" then some .le
  else none

/-- Split a marker string on spaces, dropping empty tokens. -/
def tokensOf (s : String) : List String :=
  ((splitOnChar ' ' s.toList).filter (fun t => t ≠ [])).map String.mk

/-- Modelled from the spec: construct a version predicate from a string
(`VersionOperator(txt)`); invalid input gives `none`. -/
def parseVersionOperator (s : String) : Option VersionOperator :=
  match tokensOf s with
  | [a] => (parseVersion a).map (fun v => ⟨.eq, v⟩)
  | [o, a] =>
    match parseOp o, parseVersion a with
    | some op, some v => some ⟨op, v⟩
    | _, _ => none
  | _ => none

/-- Modelled from the spec: construct a toolchain version predicate from a
string of the shape `name operator version` (`ToolchainVersionOperator(txt)`);
invalid input gives `none`. -/
def parseToolchainVersionOperator (s : String) : Option ToolchainVersionOperator :=
  match tokensOf s with
  | [n, o, a] =>
    if (parseOp n).isNone && (parseVersion n).isNone then
      match parseOp o, parseVersion a with
      | some op, some v => some ⟨n, ⟨op, v⟩⟩
      | _, _ => none
    else none
  | _ => none

/-- Classify a section-marker string, toolchain form first (the order of
`KNOWN_VERSION_MARKER_TYPES`). -/
def parseMarker (s : String) : Option NKey :=
  match parseToolchainVersionOperator s with
  | some t => some (.tcop t)
  | none => (parseVersionOperator s).map .vop

/-! ## Section classification and tree building (`parse_sections`) -/

/-- Modelled from the spec: `Dependency(dep_val, name=dep_name)` from
`format/convert.py`; the version is the raw value (first element when the
generic parser already split a list). -/
def mkDependency (depName : String) (rawval : CVal) : Dependency :=
  { name := some depName,
    version :=
      match rawval with
      | .str s => some s
      | .list (x :: _) => some x
      | .list [] => none
      | .sec _ => none }

/-- Parse the entries of a `DEPENDENCIES` section into a dependency list; a
nested subsection or a dependency missing name/version is fatal. -/
def parseDeps : List (String × CVal) → Except EBError (List Dependency)
  | [] => .ok []
  | (depName, depVal) :: rest =>
    match depVal with
    | .sec _ => .error (.structural ("Unsupported nested section found in dependencies section: " ++ depName))
    | _ =>
      let dep := mkDependency depName depVal
      if dep.name.isNone || dep.version.isNone then
        .error (.structural "Failed to find name and version in parsed dependency")
      else do
        let r ← parseDeps rest
        .ok (dep :: r)

/-- The raw element list of a `versions`/`toolchains` value: configobj either
already split on commas or left one string. -/
def rawElems (value : CVal) : List String :=
  match value with
  | .str s => (splitOnChar ',' s.toList).map String.mk
  | .list l => l
  | .sec _ => []

/-- Parse a `versions` value into version predicates; any invalid element is
fatal for the whole entry. -/
def parseVopList (value : CVal) : Except EBError (List VersionOperator) :=
  match (rawElems value).mapM (fun x => parseVersionOperator (String.mk (trimChars x.toList))) with
  | some l => .ok l
  | none => .error (.structural "Failed to parse list of VersionOperator")

/-- Parse a `toolchains` value into toolchain version predicates; any invalid
element is fatal for the whole entry. -/
def parseTcopList (value : CVal) : Except EBError (List ToolchainVersionOperator) :=
  match (rawElems value).mapM
      (fun x => parseToolchainVersionOperator (String.mk (trimChars x.toList))) with
  | some l => .ok l
  | none => .error (.structural "Failed to parse list of ToolchainVersionOperator")

/-- Convert a generic scalar into a stored value (the pass-through branch of
`parse_sections`). -/
def passThrough (value : CVal) : Value :=
  match value with
  | .str s => .str s
  | .list l => .strList l
  | .sec _ => .str ""

/-- One level of `parse_sections`, structurally recursive over the entry list.

`recur` parses one nested sub-level (a fresh `NestedDict` one depth deeper)
and returns its entries together with the writes it escaped to the tree root:
`get_nested_dict` hands every nested dict the root as its `parent`, so the
`DEPENDENCIES` branch of a nested level writes `dependencies` into the root.
At the top level (`isTop`) those escaped writes are applied to the current
accumulator (which is the root); the top-level `DEPENDENCIES` branch itself
updates the `DEFAULT` child instead. -/
def parseGo (recur : List (String × CVal) → Except EBError (List (NKey × NTree) × List (NKey × NTree)))
    (isTop : Bool) :
    List (String × CVal) → List (NKey × NTree) → List (NKey × NTree) →
    Except EBError (List (NKey × NTree) × List (NKey × NTree))
  | [], acc, escapes => .ok (acc, escapes)
  | (key, value) :: rest, acc, escapes =>
    match value with
    | .sec s =>
      if key = "DEFAULT" ∨ key = "SUPPORTED" then do
        let (entries, esc) ← recur s
        let acc1 := if isTop then dupdate acc esc else acc
        let escapes1 := if isTop then escapes else escapes ++ esc
        parseGo recur isTop rest (dset acc1 (.str key) (.tree entries)) escapes1
      else if key = "DEPENDENCIES" then do
        let deps ← parseDeps s
        if isTop then
          match dlookup acc (.str "DEFAULT") with
          | some (.tree dentries) =>
            parseGo recur isTop rest
              (dset acc (.str "DEFAULT")
                (.tree (dset dentries (.str "dependencies") (.val (.deps deps))))) escapes
          | _ => .error (.structural "DEFAULT section missing")
        else
          parseGo recur isTop rest acc
            (escapes ++ [(NKey.str "dependencies", NTree.val (.deps deps))])
      else
        match parseMarker key with
        | none => .error (.structural ("Unsupported section marker: " ++ key))
        | some k => do
          let (entries, esc) ← recur s
          let acc1 := if isTop then dupdate acc esc else acc
          let escapes1 := if isTop then escapes else escapes ++ esc
          parseGo recur isTop rest (dset acc1 k (.tree entries)) escapes1
    | _ =>
      if key = "versions" then do
        let l ← parseVopList value
        parseGo recur isTop rest (dset acc (.str key) (.val (.vops l))) escapes
      else if key = "toolchains" then do
        let l ← parseTcopList value
        parseGo recur isTop rest (dset acc (.str key) (.val (.tcops l))) escapes
      else
        parseGo recur isTop rest (dset acc (.str key) (.val (passThrough value))) escapes

/-- `parse_sections` with a recursion-depth fuel (the Python recursion is
bounded only by the input nesting depth). -/
def parseLevel (fuel : Nat) (isTop : Bool) (items : List (String × CVal))
    (acc : List (NKey × NTree)) :
    Except EBError (List (NKey × NTree) × List (NKey × NTree)) :=
  match fuel with
  | 0 => .error (.structural "recursion limit")
  | f + 1 => parseGo (fun s => parseLevel f false s []) isTop items acc []

/-- Modelled from the spec: `VersionOperator.get_version_str`, a representative
concrete value, derivable only from an exact-equality predicate. -/
def getVersionStr (v : VersionOperator) : Option String :=
  if v.op = .eq then some (verToString v.ver) else none

/-- Modelled from the spec: `ToolchainVersionOperator.as_dict`, the
representative toolchain description, derivable only when the version part
has a concrete representative. -/
def tcAsDict (t : ToolchainVersionOperator) : Option Value :=
  (getVersionStr t.versop).map (fun s => .tcDict t.tc_name s)

/-- Validate and hoist the retained `SUPPORTED` entries onto the tree root:
only `versions`/`toolchains` are allowed. -/
def hoistSupported : List (NKey × NTree) → List (NKey × NTree) →
    Except EBError (List (NKey × NTree))
  | [], secs => .ok secs
  | (k, v) :: rest, secs =>
    if k = NKey.str "versions" ∨ k = NKey.str "toolchains" then
      hoistSupported rest (dset secs k v)
    else .error (.structural "Unsupported key in SUPPORTED section")

/-- Derive the default `version` from the first supported version predicate,
when it exposes a representative value (a soft warning otherwise). -/
def deriveDefaultVersion (supported dflt : List (NKey × NTree)) :
    Except EBError (List (NKey × NTree)) :=
  match dlookup supported (.str "versions") with
  | some (.val (.vops (first :: _))) =>
    match getVersionStr first with
    | some s => .ok (dset dflt (.str "version") (.val (.str s)))
    | none => .ok dflt
  | some (.val (.vops [])) => .error (.structural "IndexError: empty versions list")
  | some _ => .error (.structural "versions entry has unexpected type")
  | none => .ok dflt

/-- Derive the default `toolchain` from the first supported toolchain
predicate, when it exposes a representative description. -/
def deriveDefaultToolchain (supported dflt : List (NKey × NTree)) :
    Except EBError (List (NKey × NTree)) :=
  match dlookup supported (.str "toolchains") with
  | some (.val (.tcops (first :: _))) =>
    match tcAsDict first with
    | some d => .ok (dset dflt (.str "toolchain") (.val d))
    | none => .ok dflt
  | some (.val (.tcops [])) => .error (.structural "IndexError: empty toolchains list")
  | some _ => .error (.structural "toolchains entry has unexpected type")
  | none => .ok dflt

/-- `EBConfigObj.parse`: seed `DEFAULT`/`SUPPORTED`, run the tree builder,
hoist `DEFAULT` entries flat onto the root, split off and validate
`SUPPORTED`, and derive representative defaults. -/
def parse (fuel : Nat) (configobj : List (String × CVal)) : Except EBError EBConfigObj := do
  let acc0 : List (NKey × NTree) := [(.str "DEFAULT", .tree []), (.str "SUPPORTED", .tree [])]
  let (secs, _) ← parseLevel fuel true configobj acc0
  match dpop secs (.str "DEFAULT") with
  | some (NTree.tree dentries, secs1) =>
    let secs2 := dentries.foldl (fun a kv => dset a kv.1 kv.2) secs1
    match dpop secs2 (.str "SUPPORTED") with
    | some (NTree.tree sentries, secs3) => do
      let secs4 ← hoistSupported sentries secs3
      let dflt1 ← deriveDefaultVersion sentries dentries
      let dflt2 ← deriveDefaultToolchain sentries dflt1
      .ok ⟨secs4, dflt2, sentries⟩
    | _ => .error (.structural "SUPPORTED section missing")
  | _ => .error (.structural "DEFAULT section missing")

/-! ## The config resolver (`squash` / `_squash`) -/

/-- The conflict-tracking state threaded through the whole squash recursion:
one store for plain version predicates and one store per toolchain name. -/
structure Sanity where
  versops : OrderedVersionOperators
  toolchains : List (String × OrderedVersionOperators)
deriving DecidableEq

/-- Outcome of processing one entry of a level: continue with updated state,
or discard the whole level (the early `return OrderedVersionOperators(), {}`
of the `toolchains`/`versions` gates). -/
inductive StepOut where
  | cont : Sanity → OrderedVersionOperators → ResMap → ResMap → StepOut
  | halt : Sanity → OrderedVersionOperators → ResMap → StepOut

/-- Register all predicates of a scalar `toolchains` entry in the per-name
stores and report whether any matches the requested toolchain. -/
def registerToolchains (sanity : Sanity) (tcs : List ToolchainVersionOperator)
    (tcname : String) (tcversion : EVersion) : Except EBError (Sanity × Bool) :=
  match tcs with
  | [] => .ok (sanity, false)
  | t :: rest => do
    let store := (dlookup sanity.toolchains t.tc_name).getD ovoEmpty
    let store1 ← ovoAdd store t.versop [] false
    let s1 : Sanity := ⟨sanity.versops, dset sanity.toolchains t.tc_name store1⟩
    let (s2, m) ← registerToolchains s1 rest tcname tcversion
    .ok (s2, tcopTest t tcname tcversion || m)

/-- Register all predicates of a scalar `versions` entry in the shared store
and report whether any matches the requested version. -/
def registerVersions (sanity : Sanity) (vs : List VersionOperator)
    (version : EVersion) : Except EBError (Sanity × Bool) :=
  match vs with
  | [] => .ok (sanity, false)
  | v :: rest => do
    let store1 ← ovoAdd sanity.versops v [] false
    let s1 : Sanity := ⟨store1, sanity.toolchains⟩
    let (s2, m) ← registerVersions s1 rest version
    .ok (s2, vopTest v version || m)

/-- Fold one accumulator into another, entry by entry with `update` semantics
(the `for versop in tmp_res_oversops.versops` loops of `_squash`). -/
def foldOversops (dst src : OrderedVersionOperators) : Except EBError OrderedVersionOperators :=
  src.versops.foldlM (fun acc v => ovoAdd acc v (ovoGetData src v) true) dst

/-- Process one entry of the current level of `_squash`.  `recur` resolves a
nested sub-level against the same request with the threaded sanity state. -/
def squashStep
    (recur : Sanity → List (NKey × NTree) →
      Except EBError (Sanity × OrderedVersionOperators × ResMap))
    (tcname : String) (tcversion version : EVersion) (sanity : Sanity)
    (key : NKey) (value : NTree) (oversops : OrderedVersionOperators)
    (res ressections : ResMap) : Except EBError StepOut :=
  match value with
  | .tree sub =>
    match key with
    | .tcop t => do
      let store := (dlookup sanity.toolchains t.tc_name).getD ovoEmpty
      let store1 ← ovoAdd store t.versop [] false
      let sanity1 : Sanity := ⟨sanity.versops, dset sanity.toolchains t.tc_name store1⟩
      if tcopTest t tcname tcversion then do
        let (sanity2, tmpOversops, tmpRes) ← recur sanity1 sub
        let oversops1 ← foldOversops oversops tmpOversops
        .ok (.cont sanity2 oversops1 res (dupdate ressections tmpRes))
      else
        .ok (.cont sanity1 oversops res ressections)
    | .vop v => do
      let store1 ← ovoAdd sanity.versops v [] false
      let sanity1 : Sanity := ⟨store1, sanity.toolchains⟩
      if vopTest v version then do
        let (sanity2, tmpOversops, tmpRes) ← recur sanity1 sub
        let oversops1 ← foldOversops oversops tmpOversops
        let oversops2 ← ovoAdd oversops1 v tmpRes true
        .ok (.cont sanity2 oversops2 res ressections)
      else
        .ok (.cont sanity1 oversops res ressections)
    | .str s => .error (.structural ("Unhandled section marker: " ++ s))
  | .val v =>
    if key = NKey.str "toolchains" then
      match v with
      | .tcops tclist => do
        let (sanity1, matched) ← registerToolchains sanity tclist tcname tcversion
        if matched then .ok (.cont sanity1 oversops res ressections)
        else .ok (.halt sanity1 ovoEmpty [])
      | _ => .error (.structural "toolchains value is not a toolchain predicate list")
    else if key = NKey.str "versions" then
      match v with
      | .vops vlist => do
        let (sanity1, matched) ← registerVersions sanity vlist version
        if matched then .ok (.cont sanity1 oversops res ressections)
        else .ok (.halt sanity1 ovoEmpty [])
      | _ => .error (.structural "versions value is not a version predicate list")
    else
      .ok (.cont sanity oversops (dset res key v) ressections)

/-- Walk the entries of one level of `_squash`, threading the accumulators;
at the end the promoted matching-toolchain results win over the level scalars
(`res.update(res_sections)`). -/
def squashGo
    (recur : Sanity → List (NKey × NTree) →
      Except EBError (Sanity × OrderedVersionOperators × ResMap))
    (tcname : String) (tcversion version : EVersion) (sanity : Sanity) :
    List (NKey × NTree) → OrderedVersionOperators → ResMap → ResMap →
    Except EBError (Sanity × OrderedVersionOperators × ResMap)
  | [], oversops, res, ressections => .ok (sanity, oversops, dupdate res ressections)
  | (key, value) :: rest, oversops, res, ressections => do
    match ← squashStep recur tcname tcversion version sanity key value oversops res ressections with
    | .cont s1 o1 r1 rs1 => squashGo recur tcname tcversion version s1 rest o1 r1 rs1
    | .halt s1 o1 r1 => .ok (s1, o1, r1)

/-- `_squash` on one level (fresh per-level accumulators), with recursion
fuel standing in for the Python call stack. -/
def squashLevel (fuel : Nat) (tcname : String) (tcversion version : EVersion)
    (sanity : Sanity) (entries : List (NKey × NTree)) :
    Except EBError (Sanity × OrderedVersionOperators × ResMap) :=
  match fuel with
  | 0 => .error (.structural "recursion limit")
  | f + 1 =>
    squashGo (squashLevel f tcname tcversion version) tcname tcversion version
      sanity entries ovoEmpty [] []

/-- `EBConfigObj.squash`: resolve the whole tree for one request, then merge
the accumulated version-predicate data least-specific-first so the most
specific predicate wins on key collisions. -/
def squash (fuel : Nat) (cfg : EBConfigObj) (tcname : String)
    (tcversion version : EVersion) : Except EBError ResMap := do
  let (_, oversops, res) ←
    squashLevel fuel tcname tcversion version ⟨ovoEmpty, []⟩ cfg.sections
  .ok (oversops.versops.reverse.foldl (fun r v => dupdate r (ovoGetData oversops v)) res)

/-- A plain scalar entry of a level: a non-nested value under a key other
than the special `toolchains`/`versions` keys (the final `res[key] = value`
branch of `_squash`). -/
def isPlainScalar (kv : NKey × NTree) : Bool :=
  (match kv.2 with
   | .val _ => true
   | .tree _ => false)
  && !(kv.1 = NKey.str "toolchains" : Bool) && !(kv.1 = NKey.str "versions" : Bool)

/-! ## The query entry point (`get_specs_for`) -/

/-- `EBConfigObj.get_specs_for`: validate the requested version, toolchain
name and toolchain version against the declared supported ranges, then return
the top-level default mapping (no path selection). -/
def get_specs_for (cfg : EBConfigObj) (version tcname tcversion : Option String) :
    Except EBError (List (NKey × NTree)) := do
  let svops ←
    match dlookup cfg.supported (.str "versions") with
    | some (.val (.vops l)) => pure l
    | _ => .error (.structural "KeyError: versions")
  let versions := svops.map getVersionStr
  match version with
  | none => pure ()
  | some v =>
    if memq (some v) versions then pure ()
    else .error (.unsupportedVersion v versions)
  let stcops ←
    match dlookup cfg.supported (.str "toolchains") with
    | some (.val (.tcops l)) => pure l
    | _ => .error (.structural "KeyError: toolchains")
  let tcnames := stcops.map (fun t => t.tc_name)
  match tcname with
  | none => pure ()
  | some n =>
    if memq n tcnames then
      let tcversions := (stcops.filter (fun t => t.tc_name = n)).map (fun t => getVersionStr t.versop)
      match tcversion with
      | none => pure ()
      | some tv =>
        if memq (some tv) tcversions then pure ()
        else .error (.unsupportedToolchainVersion n tv tcversions)
    else .error (.unsupportedToolchain n tcnames)
  .ok cfg.default

/-! ## `NestedDict.copy` with explicit object identity

`copy` promises fresh objects with deep-copied contents while sharing the
`parent` back-reference; those are object-identity facts, so this part of the
embedding runs over an explicit heap of addressed objects. -/

/-- A Python value as seen from a `NestedDict` entry: a reference to a heap
object (a nested dict or another mutable container) or an immutable scalar. -/
inductive PyVal where
  | ref : Nat → PyVal
  | prim : String → PyVal
deriving DecidableEq

/-- A heap object: a `NestedDict` (`isTop` marks the `TopNestedDict`
subclass) with depth, parent address and entries, or an opaque mutable
container that `copy.deepcopy` copies atomically. -/
inductive PyObj where
  | nd : Bool → Nat → Nat → List (String × PyVal) → PyObj
  | box : String → PyObj
deriving DecidableEq

/-- A heap: addressed objects plus the next fresh address. -/
structure Heap where
  objs : List (Nat × PyObj)
  next : Nat
deriving DecidableEq

/-- Allocate a fresh object. -/
def halloc (h : Heap) (o : PyObj) : Heap × Nat :=
  (⟨h.objs ++ [(h.next, o)], h.next + 1⟩, h.next)

/-- Read an object. -/
def hget (h : Heap) (a : Nat) : Option PyObj := dlookup h.objs a

/-- Overwrite an object in place. -/
def hset (h : Heap) (a : Nat) (o : PyObj) : Heap := ⟨dset h.objs a o, h.next⟩

/-- The parent address stored in a nested-dict object, when `a` is one. -/
def parentOf (h : Heap) (a : Nat) : Option Nat :=
  match hget h a with
  | some (.nd _ _ p _) => some p
  | _ => none

mutual
/-- `NestedDict.copy` on the heap: allocate `self.__class__(parent=self.parent,
depth=self.depth)` — the `TopNestedDict` initializer ignores both arguments
and makes the new object its own parent at depth 0 — then copy every entry,
recursing into nested dicts and deep-copying other containers. -/
def ndCopy : Nat → Heap → Nat → Option (Heap × Nat)
  | 0, _, _ => none
  | fuel + 1, h, a =>
    match hget h a with
    | some (.nd isTop depth parent entries) =>
      let (h1, na) := halloc h (.nd isTop 0 0 [])
      let newParent := if isTop then na else parent
      let newDepth := if isTop then 0 else depth
      match copyEntries fuel h1 entries with
      | some (h2, newEntries) => some (hset h2 na (.nd isTop newDepth newParent newEntries), na)
      | none => none
    | _ => none

/-- Copy the entry list of a nested dict in order. -/
def copyEntries : Nat → Heap → List (String × PyVal) → Option (Heap × List (String × PyVal))
  | 0, _, _ => none
  | _ + 1, h, [] => some (h, [])
  | fuel + 1, h, (k, v) :: rest =>
    match copyVal fuel h v with
    | some (h1, v1) =>
      match copyEntries fuel h1 rest with
      | some (h2, rest1) => some (h2, (k, v1) :: rest1)
      | none => none
    | none => none

/-- Copy one entry value: nested dicts via `val.copy()`, other containers via
`copy.deepcopy` (a fresh equal object), immutable scalars unchanged. -/
def copyVal : Nat → Heap → PyVal → Option (Heap × PyVal)
  | 0, _, _ => none
  | _ + 1, h, .prim s => some (h, .prim s)
  | fuel + 1, h, .ref r =>
    match hget h r with
    | some (.nd _ _ _ _) => (ndCopy fuel h r).map (fun p => (p.1, PyVal.ref p.2))
    | some (.box s) =>
      let (h1, a) := halloc h (.box s)
      some (h1, .ref a)
    | none => none
end

/-! ## The heap-level view of a squash level

Whether the mapping returned by `squash` aliases container values held in the
model tree is an object-identity question, so — as for `NestedDict.copy` —
the value-entry walk of `_squash` is also embedded over the explicit heap:
values are heap references or immutable scalars, the heap is threaded through
(the source performs no copy and no allocation on this path), and the
`res[key] = value` branch stores the reference itself in the result. -/

/-- A value of a squash level as the heap sees it: a Python value (reference
to a heap container, or immutable scalar) or one of the predicate lists
consumed by the `toolchains`/`versions` gates. -/
inductive HVal where
  | pv : PyVal → HVal
  | vops : List VersionOperator → HVal
  | tcops : List ToolchainVersionOperator → HVal
deriving DecidableEq

/-- A plain heap-value entry: a Python value under a non-gate key. -/
def isHeapScalar (kv : NKey × HVal) : Bool :=
  (match kv.2 with
   | .pv _ => true
   | _ => false)
  && !(kv.1 = NKey.str "toolchains" : Bool) && !(kv.1 = NKey.str "versions" : Bool)

/-- The value-entry walk of `_squash` on heap-resident values: the scalar
`toolchains`/`versions` gates register their predicates and discard the level
when nothing matches, and every other entry is stored in the result by
`res[key] = value` — a reference copy.  The heap is threaded unchanged: this
path of the source neither copies nor allocates. -/
def squashFlatGo (tcname : String) (tcversion version : EVersion) :
    Sanity → Heap → List (NKey × HVal) → List (NKey × HVal) →
    Except EBError (Heap × Sanity × List (NKey × HVal))
  | sanity, h, [], res => .ok (h, sanity, res)
  | sanity, h, (key, value) :: rest, res =>
    if key = NKey.str "toolchains" then
      match value with
      | .tcops tclist => do
        let (sanity1, matched) ← registerToolchains sanity tclist tcname tcversion
        if matched then squashFlatGo tcname tcversion version sanity1 h rest res
        else .ok (h, sanity1, [])
      | _ => .error (.structural "toolchains value is not a toolchain predicate list")
    else if key = NKey.str "versions" then
      match value with
      | .vops vlist => do
        let (sanity1, matched) ← registerVersions sanity vlist version
        if matched then squashFlatGo tcname tcversion version sanity1 h rest res
        else .ok (h, sanity1, [])
      | _ => .error (.structural "versions value is not a version predicate list")
    else
      squashFlatGo tcname tcversion version sanity h rest (dset res key value)

/-- A heap holding one mutable container: a parsed dependency list, as the
tree root of `doc5` stores one after parse. -/
def h6 : Heap := ⟨[(1, .box "parsed dependency list")], 2⟩

/-- A flat model level whose `dependencies` entry references that container,
mirroring the hoisted tree root of `doc5`. -/
def secs6 : List (NKey × HVal) := [(NKey.str "dependencies", HVal.pv (PyVal.ref 1))]

/-! ## The style check (`eb_check_trailing_whitespace`, style.py) -/

/-- The `^\s*#` comment test. -/
def isCommentLine (s : String) : Bool :=
  match s.toList.dropWhile isPySpace with
  | '#' :: _ => true
  | _ => false

/-- Python `str.rstrip(chars)` on a character list. -/
def rstripChars (cs : List Char) (s : List Char) : List Char :=
  (s.reverse.dropWhile (fun c => cs.contains c)).reverse

/-- Modelled from the spec: the external line check the style module
delegates to (`pep8.trailing_whitespace`): strip the line terminator, then
report trailing whitespace as `W291` — or `W293` when the whole line is
whitespace — at the offset where the stripped text ends. -/
def trailing_whitespace (physical_line : String) : Option (Nat × String) :=
  let l1 := rstripChars ['\n'] physical_line.toList
  let l2 := rstripChars ['\x0d'] l1
  let l3 := rstripChars ['\x0c'] l2
  let stripped := rstripChars [' ', '\t', '\x0b'] l3
  if l3 ≠ stripped then
    if stripped ≠ [] then some (stripped.length, "W291 trailing whitespace")
    else some (0, "W293 whitespace on blank line")
  else none

/-- Replace every occurrence of `W291` by `W299` (the fixed-pattern
`str.replace` of the source), left to right. -/
def replaceW291 : List Char → List Char
  | 'W' :: '2' :: '9' :: '1' :: rest => 'W' :: '2' :: '9' :: '9' :: replaceW291 rest
  | c :: rest => c :: replaceW291 rest
  | [] => []

/-- The `^(?P<key>[a-z_]+)\s*=\s*` key-assignment matcher: the key when the
line is an assignment. -/
def keyOf (line : String) : Option String :=
  let cs := line.toList
  let key := cs.takeWhile (fun c => (c ≥ 'a' && c ≤ 'z') || c = '_')
  if key = [] then none
  else
    match (cs.drop key.length).dropWhile isPySpace with
    | '=' :: _ => some (String.mk key)
    | _ => none

/-- `eb_check_trailing_whitespace`: no warning for comment lines; the
underlying trailing-whitespace result has `W291` renamed to `W299`; and the
warning is suppressed when, scanning backwards from the current line, the
first key-assignment line is a `description`. -/
def eb_check_trailing_whitespace (physical_line : String) (lines : List String)
    (line_number : Nat) (_total_lines : Nat) : Option (Nat × String) :=
  if isCommentLine physical_line then none
  else
    let result := (trailing_whitespace physical_line).map
      (fun p => (p.1, String.mk (replaceW291 p.2.toList)))
    match (lines.take line_number).reverse.findSome? keyOf with
    | some k => if k = "description" then none else result
    | none => result

/-! ## Concrete documents used by the claims -/

/-- A document with `DEFAULT = {a: 1}` and one sibling section gated `> 2.0`
containing `{a: 2}`. -/
def doc1 : List (String × CVal) :=
  [("DEFAULT", .sec [("a", .str "1")]),
   ("> 2.0", .sec [("a", .str "2")])]

/-- The parsed model of `doc1`. -/
def cfg1 : Except EBError EBConfigObj := parse 10 doc1

/-- A document with sibling sections gated `> 1.0` (`{x: 1}`) and `> 2.0`
(`{x: 2}`). -/
def doc2 : List (String × CVal) :=
  [("> 1.0", .sec [("x", .str "1")]),
   ("> 2.0", .sec [("x", .str "2")])]

/-- The parsed model of `doc2`. -/
def cfg2 : Except EBError EBConfigObj := parse 10 doc2

/-- A document whose conflicting sibling version predicates (`> 1.0` and
`< 2.0` overlap without refinement) sit inside a toolchain-gated section. -/
def doc3 : List (String × CVal) :=
  [("gcc > 5.0", .sec
     [("> 1.0", .sec [("y", .str "1")]),
      ("< 2.0", .sec [("y", .str "2")])])]

/-- The parsed model of `doc3`. -/
def cfg3 : Except EBError EBConfigObj := parse 10 doc3

/-- A document with a `DEPENDENCIES` section nested one level inside a
version-predicate-gated section. -/
def doc5 : List (String × CVal) :=
  [("> 1.0", .sec [("DEPENDENCIES", .sec [("foo", .str "1.2")])])]

/-- The parsed model of `doc5`. -/
def cfg5 : Except EBError EBConfigObj := parse 10 doc5

/-- A document with a `DEPENDENCIES` section at the document root. -/
def doc5b : List (String × CVal) :=
  [("DEPENDENCIES", .sec [("bar", .str "2.0")])]

/-- The parsed model of `doc5b`. -/
def cfg5b : Except EBError EBConfigObj := parse 10 doc5b

/-- A model with declared supported versions and toolchains, for the query
entry point. -/
def cfg8 : EBConfigObj :=
  { sections := [],
    default := [(.str "name", .val (.str "demo"))],
    supported :=
      [(.str "versions", .val (.vops [⟨.eq, [1, 0]⟩, ⟨.gt, [2, 0]⟩])),
       (.str "toolchains", .val (.tcops [⟨"gcc", ⟨.eq, [4, 0]⟩⟩]))] }

/-! # Theorems -/

/-- Helper: looking up the key just assigned finds the assigned value. -/
theorem dlookup_dset_self {α : Type u} {β : Type v} [DecidableEq α] :
    ∀ (l : List (α × β)) (k : α) (v : β), dlookup (dset l k v) k = some v := by
  intro l k v
  induction l with
  | nil => simp [dset, dlookup]
  | cons kv rest ih =>
    obtain ⟨k1, v1⟩ := kv
    by_cases hk : k1 = k
    · simp [dset, dlookup, hk]
    · simp only [dset, if_neg hk, dlookup]
      simpa [if_neg hk] using ih

/-- Helper: a key found in the front part of an appended association list is
found in the whole list with the same value. -/
theorem dlookup_append_some {α : Type u} {β : Type v} [DecidableEq α] :
    ∀ (l1 l2 : List (α × β)) (k : α) (v : β),
      dlookup l1 k = some v → dlookup (l1 ++ l2) k = some v := by
  intro l1 l2 k v h
  induction l1 with
  | nil => cases h
  | cons kv rest ih =>
    obtain ⟨k1, v1⟩ := kv
    simp only [dlookup] at h
    by_cases hk : k1 = k
    · rw [if_pos hk] at h
      simp only [List.cons_append, dlookup, if_pos hk]
      exact h
    · rw [if_neg hk] at h
      simp only [List.cons_append, dlookup, if_neg hk]
      exact ih h

/-- Helper: a key absent from the front part of an appended association list
is looked up in the back part. -/
theorem dlookup_append_none {α : Type u} {β : Type v} [DecidableEq α] :
    ∀ (l1 l2 : List (α × β)) (k : α),
      dlookup l1 k = none → dlookup (l1 ++ l2) k = dlookup l2 k := by
  intro l1 l2 k h
  induction l1 with
  | nil => simp
  | cons kv rest ih =>
    obtain ⟨k1, v1⟩ := kv
    simp only [dlookup] at h
    by_cases hk : k1 = k
    · rw [if_pos hk] at h; cases h
    · rw [if_neg hk] at h
      simp only [List.cons_append, dlookup, if_neg hk]
      exact ih h

/-- Helper: assigning a key whose first occurrence sits in the middle of an
association list rewrites that occurrence in place. -/
theorem dset_append_mid {α : Type u} {β : Type v} [DecidableEq α] :
    ∀ (l : List (α × β)) (k : α) (o o' : β) (tail : List (α × β)), dlookup l k = none →
      dset (l ++ (k, o) :: tail) k o' = l ++ (k, o') :: tail := by
  intro l k o o' tail hl
  induction l with
  | nil => simp [dset]
  | cons kv rest ih =>
    obtain ⟨k1, v1⟩ := kv
    simp only [dlookup] at hl
    by_cases hk : k1 = k
    · rw [if_pos hk] at hl; cases hl
    · rw [if_neg hk] at hl
      simp only [List.cons_append, dset, if_neg hk]
      exact congrArg (List.cons (k1, v1)) (ih hl)

/-- Helper: a level made of plain scalar entries resolves without error,
leaving the sanity state and the accumulator untouched. -/
theorem squashGo_plain_level (tcn : String) (tcv ver : EVersion)
    (recur : Sanity → List (NKey × NTree) →
      Except EBError (Sanity × OrderedVersionOperators × ResMap)) :
    ∀ (entries : List (NKey × NTree)) (sanity : Sanity)
      (oversops : OrderedVersionOperators) (res ressections : ResMap),
      (∀ kv ∈ entries, isPlainScalar kv = true) →
      ∃ r, squashGo recur tcn tcv ver sanity entries oversops res ressections
        = .ok (sanity, oversops, r) := by
  intro entries
  induction entries with
  | nil =>
    intro sanity oversops res ressections _
    exact ⟨dupdate res ressections, by simp [squashGo]⟩
  | cons kv rest ih =>
    intro sanity oversops res ressections hpl
    obtain ⟨k, v⟩ := kv
    have hkv := hpl (k, v) (List.mem_cons_self _ _)
    cases v with
    | tree sub => simp [isPlainScalar] at hkv
    | val x =>
      simp [isPlainScalar] at hkv
      obtain ⟨hk1, hk2⟩ := hkv
      obtain ⟨r, hr⟩ :=
        ih sanity oversops (dset res k x) ressections (fun y hy => hpl y (List.mem_cons_of_mem _ hy))
      refine ⟨r, ?_⟩
      simp only [squashGo, squashStep, bind, Except.bind, if_neg hk1, if_neg hk2]
      exact hr

/-- Helper: a prefix of plain scalar entries only fills the level result, so
the walk continues on the tail with some updated result accumulator. -/
theorem squashGo_plain_prefix (tcn : String) (tcv ver : EVersion)
    (recur : Sanity → List (NKey × NTree) →
      Except EBError (Sanity × OrderedVersionOperators × ResMap)) :
    ∀ (pre tail : List (NKey × NTree)) (sanity : Sanity)
      (oversops : OrderedVersionOperators) (res ressections : ResMap),
      (∀ kv ∈ pre, isPlainScalar kv = true) →
      ∃ res1, squashGo recur tcn tcv ver sanity (pre ++ tail) oversops res ressections
        = squashGo recur tcn tcv ver sanity tail oversops res1 ressections := by
  intro pre
  induction pre with
  | nil => intro tail sanity oversops res ressections _; exact ⟨res, rfl⟩
  | cons kv pre ih =>
    intro tail sanity oversops res ressections hpl
    obtain ⟨k, v⟩ := kv
    have hkv := hpl (k, v) (List.mem_cons_self _ _)
    cases v with
    | tree sub => simp [isPlainScalar] at hkv
    | val x =>
      simp [isPlainScalar] at hkv
      obtain ⟨hk1, hk2⟩ := hkv
      obtain ⟨res1, hres1⟩ :=
        ih tail sanity oversops (dset res k x) ressections
          (fun y hy => hpl y (List.mem_cons_of_mem _ hy))
      refine ⟨res1, ?_⟩
      simp only [List.cons_append, squashGo, squashStep, bind, Except.bind,
        if_neg hk1, if_neg hk2]
      exact hres1

/-- Helper: when the shared version store holds exactly a predicate that the
next version-marker sibling conflicts with, the walk over any plain entries
in between ends in the range conflict, whatever subtree the sibling holds. -/
theorem squashGo_version_conflict_tail (tcn : String) (tcv ver : EVersion)
    (recur : Sanity → List (NKey × NTree) →
      Except EBError (Sanity × OrderedVersionOperators × ResMap))
    (v1 v2 : VersionOperator) (hconf : vopConflict v2 v1 = true) :
    ∀ (mid : List (NKey × NTree)) (t2 rest : List (NKey × NTree)) (sanity : Sanity)
      (oversops : OrderedVersionOperators) (res ressections : ResMap),
      sanity.versops.versops = [v1] →
      (∀ kv ∈ mid, isPlainScalar kv = true) →
      squashGo recur tcn tcv ver sanity (mid ++ (NKey.vop v2, NTree.tree t2) :: rest)
        oversops res ressections
        = .error (.rangeConflict v2 v1) := by
  have hne : (decide (v2 = v1)) = false := by
    cases h0 : decide (v2 = v1)
    · rfl
    · simp [vopConflict, h0] at hconf
  intro mid
  induction mid with
  | nil =>
    intro t2 rest sanity oversops res ressections hst _
    simp [squashGo, squashStep, ovoAdd, memq, hst, hne, ovoInsert, hconf, bind, Except.bind]
  | cons kv mid ih =>
    intro t2 rest sanity oversops res ressections hst hpl
    obtain ⟨k, v⟩ := kv
    have hkv := hpl (k, v) (List.mem_cons_self _ _)
    cases v with
    | tree sub => simp [isPlainScalar] at hkv
    | val x =>
      simp [isPlainScalar] at hkv
      obtain ⟨hk1, hk2⟩ := hkv
      simp only [List.cons_append, squashGo, squashStep, bind, Except.bind,
        if_neg hk1, if_neg hk2]
      exact ih t2 rest sanity oversops (dset res k x) ressections hst
        (fun y hy => hpl y (List.mem_cons_of_mem _ hy))

/-- Helper: when the per-name toolchain store holds exactly a predicate that
the next same-name toolchain-marker sibling conflicts with, the walk over any
plain entries in between ends in the range conflict. -/
theorem squashGo_toolchain_conflict_tail (tcn : String) (tcv ver : EVersion)
    (recur : Sanity → List (NKey × NTree) →
      Except EBError (Sanity × OrderedVersionOperators × ResMap))
    (name : String) (p1 p2 : VersionOperator) (hconf : vopConflict p2 p1 = true) :
    ∀ (mid : List (NKey × NTree)) (t2 rest : List (NKey × NTree)) (sanity : Sanity)
      (oversops : OrderedVersionOperators) (res ressections : ResMap),
      ((dlookup sanity.toolchains name).getD ovoEmpty).versops = [p1] →
      (∀ kv ∈ mid, isPlainScalar kv = true) →
      squashGo recur tcn tcv ver sanity
        (mid ++ (NKey.tcop ⟨name, p2⟩, NTree.tree t2) :: rest) oversops res ressections
        = .error (.rangeConflict p2 p1) := by
  have hne : (decide (p2 = p1)) = false := by
    cases h0 : decide (p2 = p1)
    · rfl
    · simp [vopConflict, h0] at hconf
  intro mid
  induction mid with
  | nil =>
    intro t2 rest sanity oversops res ressections hst _
    simp [squashGo, squashStep, ovoAdd, memq, hst, hne, ovoInsert, hconf, bind, Except.bind]
  | cons kv mid ih =>
    intro t2 rest sanity oversops res ressections hst hpl
    obtain ⟨k, v⟩ := kv
    have hkv := hpl (k, v) (List.mem_cons_self _ _)
    cases v with
    | tree sub => simp [isPlainScalar] at hkv
    | val x =>
      simp [isPlainScalar] at hkv
      obtain ⟨hk1, hk2⟩ := hkv
      simp only [List.cons_append, squashGo, squashStep, bind, Except.bind,
        if_neg hk1, if_neg hk2]
      exact ih t2 rest sanity oversops (dset res k x) ressections hst
        (fun y hy => hpl y (List.mem_cons_of_mem _ hy))

/-- Helper: the heap-level squash walk never writes the heap: a successful
run returns it unchanged. -/
theorem squashFlatGo_heap_unchanged (tcn : String) (tcv ver : EVersion) :
    ∀ (entries : List (NKey × HVal)) (sanity : Sanity) (h : Heap)
      (res : List (NKey × HVal)) (out : Heap × Sanity × List (NKey × HVal)),
      squashFlatGo tcn tcv ver sanity h entries res = .ok out → out.1 = h := by
  intro entries
  induction entries with
  | nil =>
    intro sanity h res out hout
    simp only [squashFlatGo] at hout
    cases hout
    rfl
  | cons kv rest ih =>
    intro sanity h res out hout
    obtain ⟨k, v⟩ := kv
    simp only [squashFlatGo, bind, Except.bind] at hout
    by_cases hk1 : k = NKey.str "toolchains"
    · rw [if_pos hk1] at hout
      cases v with
      | pv p => dsimp only at hout; cases hout
      | vops l => dsimp only at hout; cases hout
      | tcops tclist =>
        dsimp only at hout
        cases hreg : registerToolchains sanity tclist tcn tcv with
        | error e => rw [hreg] at hout; cases hout
        | ok sm =>
          obtain ⟨s1, m⟩ := sm
          rw [hreg] at hout
          dsimp only at hout
          cases m with
          | true => exact ih s1 h res out hout
          | false => cases hout; rfl
    · rw [if_neg hk1] at hout
      by_cases hk2 : k = NKey.str "versions"
      · rw [if_pos hk2] at hout
        cases v with
        | pv p => dsimp only at hout; cases hout
        | tcops l => dsimp only at hout; cases hout
        | vops vlist =>
          dsimp only at hout
          cases hreg : registerVersions sanity vlist ver with
          | error e => rw [hreg] at hout; cases hout
          | ok sm =>
            obtain ⟨s1, m⟩ := sm
            rw [hreg] at hout
            dsimp only at hout
            cases m with
            | true => exact ih s1 h res out hout
            | false => cases hout; rfl
      · rw [if_neg hk2] at hout
        exact ih sanity h (dset res k v) out hout

/-- Helper: a heap-level walk over plain entries copies each value reference
into the result in order, touching neither heap nor sanity state. -/
theorem squashFlatGo_plain (tcn : String) (tcv ver : EVersion) :
    ∀ (pre : List (NKey × HVal)) (sanity : Sanity) (h : Heap) (res : List (NKey × HVal)),
      (∀ kv ∈ pre, isHeapScalar kv = true) →
      squashFlatGo tcn tcv ver sanity h pre res
        = .ok (h, sanity, pre.foldl (fun r kv => dset r kv.1 kv.2) res) := by
  intro pre
  induction pre with
  | nil => intro sanity h res _; simp [squashFlatGo]
  | cons kv rest ih =>
    intro sanity h res hpl
    obtain ⟨k, v⟩ := kv
    have hkv := hpl (k, v) (List.mem_cons_self _ _)
    cases v with
    | vops l => simp [isHeapScalar] at hkv
    | tcops l => simp [isHeapScalar] at hkv
    | pv p =>
      simp [isHeapScalar] at hkv
      obtain ⟨hk1, hk2⟩ := hkv
      simp only [squashFlatGo, if_neg hk1, if_neg hk2, List.foldl_cons]
      exact ih sanity h (dset res k (HVal.pv p)) (fun y hy => hpl y (List.mem_cons_of_mem _ hy))

/-- Helper: the matched flag reported by `registerToolchains` is false when
no listed predicate matches the requested toolchain. -/
theorem registerToolchains_no_match (tcn : String) (tcv : EVersion)
    (tcs : List ToolchainVersionOperator) :
    ∀ (sanity : Sanity) (out : Sanity × Bool),
      registerToolchains sanity tcs tcn tcv = .ok out →
      (∀ t ∈ tcs, tcopTest t tcn tcv = false) → out.2 = false := by
  induction tcs with
  | nil =>
    intro sanity out hreg _
    simp only [registerToolchains] at hreg
    cases hreg
    rfl
  | cons t rest ih =>
    intro sanity out hreg hnm
    simp only [registerToolchains, bind, Except.bind] at hreg
    cases hadd : ovoAdd ((dlookup sanity.toolchains t.tc_name).getD ovoEmpty) t.versop [] false with
    | error e => rw [hadd] at hreg; cases hreg
    | ok store1 =>
      rw [hadd] at hreg
      dsimp only at hreg
      cases hrec : registerToolchains
          ⟨sanity.versops, dset sanity.toolchains t.tc_name store1⟩ rest tcn tcv with
      | error e => rw [hrec] at hreg; cases hreg
      | ok out2 =>
        rw [hrec] at hreg
        dsimp only at hreg
        simp only [Except.ok.injEq] at hreg
        have h2 := ih _ _ hrec (fun x hx => hnm x (List.mem_cons_of_mem _ hx))
        have ht := hnm t (List.mem_cons_self _ _)
        rw [← hreg]
        simp [ht, h2]

/-- Helper: the matched flag reported by `registerVersions` is false when no
listed predicate matches the requested version. -/
theorem registerVersions_no_match (ver : EVersion) (vs : List VersionOperator) :
    ∀ (sanity : Sanity) (out : Sanity × Bool),
      registerVersions sanity vs ver = .ok out →
      (∀ v ∈ vs, vopTest v ver = false) → out.2 = false := by
  induction vs with
  | nil =>
    intro sanity out hreg _
    simp only [registerVersions] at hreg
    cases hreg
    rfl
  | cons v rest ih =>
    intro sanity out hreg hnm
    simp only [registerVersions, bind, Except.bind] at hreg
    cases hadd : ovoAdd sanity.versops v [] false with
    | error e => rw [hadd] at hreg; cases hreg
    | ok store1 =>
      rw [hadd] at hreg
      dsimp only at hreg
      cases hrec : registerVersions ⟨store1, sanity.toolchains⟩ rest ver with
      | error e => rw [hrec] at hreg; cases hreg
      | ok out2 =>
        rw [hrec] at hreg
        dsimp only at hreg
        simp only [Except.ok.injEq] at hreg
        have h2 := ih _ _ hrec (fun x hx => hnm x (List.mem_cons_of_mem _ hx))
        have hv := hnm v (List.mem_cons_self _ _)
        rw [← hreg]
        simp [hv, h2]

/-- Claim C4: a scalar `toolchains` entry (and symmetrically a `versions`
entry) acts as a level-wide gate during squash: every listed predicate is
registered into the sanity stores, and when none matches the request the
whole current level resolves to a fresh empty accumulator and an empty
result, discarding the plain scalars already collected at that level and the
accumulated version-predicate data, for any entries that may follow. -/
theorem c4_scalar_gates_discard_level :
    (∀ (fuel : Nat) (tcn : String) (tcv ver : EVersion) (sanity sanity2 : Sanity) (m : Bool)
       (pre rest : List (NKey × NTree)) (tclist : List ToolchainVersionOperator)
       (oversops : OrderedVersionOperators) (res ressections : ResMap),
       (∀ kv ∈ pre, isPlainScalar kv = true) →
       (∀ t ∈ tclist, tcopTest t tcn tcv = false) →
       registerToolchains sanity tclist tcn tcv = .ok (sanity2, m) →
       squashGo (squashLevel fuel tcn tcv ver) tcn tcv ver sanity
         (pre ++ (NKey.str "toolchains", NTree.val (Value.tcops tclist)) :: rest)
         oversops res ressections
         = .ok (sanity2, ovoEmpty, [])) ∧
    (∀ (fuel : Nat) (tcn : String) (tcv ver : EVersion) (sanity sanity2 : Sanity) (m : Bool)
       (pre rest : List (NKey × NTree)) (vlist : List VersionOperator)
       (oversops : OrderedVersionOperators) (res ressections : ResMap),
       (∀ kv ∈ pre, isPlainScalar kv = true) →
       (∀ v ∈ vlist, vopTest v ver = false) →
       registerVersions sanity vlist ver = .ok (sanity2, m) →
       squashGo (squashLevel fuel tcn tcv ver) tcn tcv ver sanity
         (pre ++ (NKey.str "versions", NTree.val (Value.vops vlist)) :: rest)
         oversops res ressections
         = .ok (sanity2, ovoEmpty, [])) := by
  constructor
  · intro fuel tcn tcv ver sanity sanity2 m pre rest tclist oversops res ressections hpre hnm hreg
    have hm : m = false :=
      registerToolchains_no_match tcn tcv tclist sanity (sanity2, m) hreg hnm
    subst hm
    revert hpre
    induction pre generalizing res with
    | nil =>
      intro _
      simp [squashGo, squashStep, hreg, bind, Except.bind]
    | cons kv pre ih =>
      intro hpre
      obtain ⟨k, v⟩ := kv
      have hkv := hpre (k, v) (List.mem_cons_self _ _)
      cases v with
      | tree sub => simp [isPlainScalar] at hkv
      | val x =>
        simp [isPlainScalar] at hkv
        obtain ⟨hk1, hk2⟩ := hkv
        simp only [List.cons_append, squashGo, squashStep, bind, Except.bind,
          if_neg hk1, if_neg hk2]
        exact ih (dset res k x) (fun y hy => hpre y (List.mem_cons_of_mem _ hy))
  · intro fuel tcn tcv ver sanity sanity2 m pre rest vlist oversops res ressections hpre hnm hreg
    have hm : m = false :=
      registerVersions_no_match ver vlist sanity (sanity2, m) hreg hnm
    subst hm
    revert hpre
    induction pre generalizing res with
    | nil =>
      intro _
      simp [squashGo, squashStep, hreg, bind, Except.bind]
    | cons kv pre ih =>
      intro hpre
      obtain ⟨k, v⟩ := kv
      have hkv := hpre (k, v) (List.mem_cons_self _ _)
      cases v with
      | tree sub => simp [isPlainScalar] at hkv
      | val x =>
        simp [isPlainScalar] at hkv
        obtain ⟨hk1, hk2⟩ := hkv
        simp only [List.cons_append, squashGo, squashStep, bind, Except.bind,
          if_neg hk1, if_neg hk2]
        exact ih (dset res k x) (fun y hy => hpre y (List.mem_cons_of_mem _ hy))

/-- Claim C4, witness: concrete levels where a collected scalar `x` precedes
a non-matching `toolchains` gate (resp. `versions` gate) resolve to an empty
result with the predicates registered in the sanity state. -/
theorem c4_scalar_gates_witness :
    squashGo (squashLevel 1 "intel" [1, 0] [1, 0]) "intel" [1, 0] [1, 0] ⟨ovoEmpty, []⟩
        [(NKey.str "x", NTree.val (Value.str "1")),
         (NKey.str "toolchains", NTree.val (Value.tcops [⟨"gcc", ⟨.gt, [5, 0]⟩⟩]))]
        ovoEmpty [] []
      = .ok (⟨ovoEmpty, [("gcc", ⟨[⟨.gt, [5, 0]⟩], [(⟨.gt, [5, 0]⟩, [])]⟩)]⟩, ovoEmpty, []) ∧
    squashGo (squashLevel 1 "intel" [1, 0] [1, 0]) "intel" [1, 0] [1, 0] ⟨ovoEmpty, []⟩
        [(NKey.str "x", NTree.val (Value.str "1")),
         (NKey.str "versions", NTree.val (Value.vops [⟨.eq, [9, 9]⟩]))]
        ovoEmpty [] []
      = .ok (⟨⟨[⟨.eq, [9, 9]⟩], [(⟨.eq, [9, 9]⟩, [])]⟩, []⟩, ovoEmpty, []) :=
  ⟨c4_scalar_gates_discard_level.1 1 "intel" [1, 0] [1, 0] ⟨ovoEmpty, []⟩
      _ false [(NKey.str "x", NTree.val (Value.str "1"))] [] [⟨"gcc", ⟨.gt, [5, 0]⟩⟩]
      ovoEmpty [] [] (by decide) (by decide) rfl,
   c4_scalar_gates_discard_level.2 1 "intel" [1, 0] [1, 0] ⟨ovoEmpty, []⟩
      _ false [(NKey.str "x", NTree.val (Value.str "1"))] [] [⟨.eq, [9, 9]⟩]
      ovoEmpty [] [] (by decide) (by decide) rfl⟩

/-- Claim C8: `get_specs_for` is validation only.  A requested version absent
from the supported versions fails with an unsupported-request error listing
the supported versions; an unsupported toolchain name (resp. toolchain
version) fails analogously listing the valid alternatives; and a fully
supported request returns exactly the model top-level default mapping, with
no version- or toolchain-aware resolution. -/
theorem c8_get_specs_for_validation_only :
    (∀ (cfg : EBConfigObj) (svops : List VersionOperator) (v : String) (tcn tcv : Option String),
       dlookup cfg.supported (.str "versions") = some (.val (.vops svops)) →
       memq (some v) (svops.map getVersionStr) = false →
       get_specs_for cfg (some v) tcn tcv
         = .error (.unsupportedVersion v (svops.map getVersionStr))) ∧
    (∀ (cfg : EBConfigObj) (svops : List VersionOperator)
       (stcops : List ToolchainVersionOperator) (n : String) (tcv : Option String),
       dlookup cfg.supported (.str "versions") = some (.val (.vops svops)) →
       dlookup cfg.supported (.str "toolchains") = some (.val (.tcops stcops)) →
       memq n (stcops.map (fun t => t.tc_name)) = false →
       get_specs_for cfg none (some n) tcv
         = .error (.unsupportedToolchain n (stcops.map (fun t => t.tc_name)))) ∧
    (∀ (cfg : EBConfigObj) (svops : List VersionOperator)
       (stcops : List ToolchainVersionOperator) (n tv : String),
       dlookup cfg.supported (.str "versions") = some (.val (.vops svops)) →
       dlookup cfg.supported (.str "toolchains") = some (.val (.tcops stcops)) →
       memq n (stcops.map (fun t => t.tc_name)) = true →
       memq (some tv)
           ((stcops.filter (fun t => t.tc_name = n)).map (fun t => getVersionStr t.versop))
         = false →
       get_specs_for cfg none (some n) (some tv)
         = .error (.unsupportedToolchainVersion n tv
             ((stcops.filter (fun t => t.tc_name = n)).map (fun t => getVersionStr t.versop)))) ∧
    (∀ (cfg : EBConfigObj) (svops : List VersionOperator)
       (stcops : List ToolchainVersionOperator) (v n tv : String),
       dlookup cfg.supported (.str "versions") = some (.val (.vops svops)) →
       dlookup cfg.supported (.str "toolchains") = some (.val (.tcops stcops)) →
       memq (some v) (svops.map getVersionStr) = true →
       memq n (stcops.map (fun t => t.tc_name)) = true →
       memq (some tv)
           ((stcops.filter (fun t => t.tc_name = n)).map (fun t => getVersionStr t.versop))
         = true →
       get_specs_for cfg (some v) (some n) (some tv) = .ok cfg.default) := by
  refine ⟨?_, ?_, ?_, ?_⟩
  · intro cfg svops v tcn tcv hver hmem
    simp [get_specs_for, hver, hmem, bind, Except.bind, pure, Except.pure]
  · intro cfg svops stcops n tcv hver htc hmem
    simp [get_specs_for, hver, htc, hmem, bind, Except.bind, pure, Except.pure]
  · intro cfg svops stcops n tv hver htc hname hmem
    simp [get_specs_for, hver, htc, hname, hmem, bind, Except.bind, pure, Except.pure]
  · intro cfg svops stcops v n tv hver htc hv hname htv
    simp [get_specs_for, hver, htc, hv, hname, htv, bind, Except.bind, pure, Except.pure]

/-- Claim C8, witness: on a concrete model supporting version 1.0 and
toolchain gcc 4.0, an unknown version, toolchain name and toolchain version
each fail listing the alternatives, and the supported request returns the
default mapping. -/
theorem c8_get_specs_for_witness :
    get_specs_for cfg8 (some "2.0") none none
      = .error (.unsupportedVersion "2.0" [some "1.0", none]) ∧
    get_specs_for cfg8 none (some "intel") none
      = .error (.unsupportedToolchain "intel" ["gcc"]) ∧
    get_specs_for cfg8 none (some "gcc") (some "5.0")
      = .error (.unsupportedToolchainVersion "gcc" "5.0" [some "4.0"]) ∧
    get_specs_for cfg8 (some "1.0") (some "gcc") (some "4.0") = .ok cfg8.default :=
  ⟨c8_get_specs_for_validation_only.1 cfg8 [⟨.eq, [1, 0]⟩, ⟨.gt, [2, 0]⟩] "2.0" none none
      rfl (by decide),
   c8_get_specs_for_validation_only.2.1 cfg8 [⟨.eq, [1, 0]⟩, ⟨.gt, [2, 0]⟩]
      [⟨"gcc", ⟨.eq, [4, 0]⟩⟩] "intel" none rfl rfl (by decide),
   c8_get_specs_for_validation_only.2.2.1 cfg8 [⟨.eq, [1, 0]⟩, ⟨.gt, [2, 0]⟩]
      [⟨"gcc", ⟨.eq, [4, 0]⟩⟩] "gcc" "5.0" rfl rfl (by decide) (by decide),
   c8_get_specs_for_validation_only.2.2.2 cfg8 [⟨.eq, [1, 0]⟩, ⟨.gt, [2, 0]⟩]
      [⟨"gcc", ⟨.eq, [4, 0]⟩⟩] "1.0" "gcc" "4.0" rfl rfl (by decide) (by decide) (by decide)⟩

/-- Helper: assigning a key that only occurs in the freshly appended tail of
an association list rewrites that tail entry in place. -/
theorem dset_append_fresh {α : Type u} {β : Type v} [DecidableEq α] :
    ∀ (l : List (α × β)) (k : α) (o o' : β), dlookup l k = none →
      dset (l ++ [(k, o)]) k o' = l ++ [(k, o')] := by
  intro l k o o' hl
  induction l with
  | nil => simp [dset]
  | cons kv rest ih =>
    obtain ⟨k1, v1⟩ := kv
    simp only [dlookup] at hl
    by_cases hk : k1 = k
    · rw [if_pos hk] at hl; cases hl
    · rw [if_neg hk] at hl
      simp only [List.cons_append, dset, if_neg hk]
      exact congrArg (List.cons (k1, v1)) (ih hl)

/-- Helper: copying an entry list of immutable scalars leaves the heap
unchanged and reproduces the entries, given enough fuel. -/
theorem copyEntries_prim (entries : List (String × String)) :
    ∀ (fuel : Nat) (h : Heap), entries.length + 1 ≤ fuel →
      copyEntries fuel h (entries.map (fun kv => (kv.1, PyVal.prim kv.2)))
        = some (h, entries.map (fun kv => (kv.1, PyVal.prim kv.2))) := by
  induction entries with
  | nil =>
    intro fuel h hf
    match fuel, hf with
    | f + 1, _ => simp [copyEntries]
  | cons kv rest ih =>
    intro fuel h hf
    match fuel, hf with
    | f + 1, hf =>
      have hf1 : rest.length + 1 ≤ f := by
        simp only [List.length_cons] at hf
        omega
      have hfv : 1 ≤ f := le_trans (Nat.le_add_left 1 rest.length) hf1
      match f, hfv with
      | g + 1, _ =>
        simp only [List.map_cons, copyEntries, copyVal]
        rw [ih (g + 1) h hf1]

/-- Claim C9 counterexample: copying a `TopNestedDict` does not share the
original parent reference.  On a heap holding one `TopNestedDict` at address
0 (its own parent), `copy` allocates address 1 whose parent is 1 — the copy
itself — while the original keeps parent 0. -/
theorem c9_counterexample_top_copy_reparents :
    ndCopy 5 ⟨[(0, .nd true 0 0 [])], 1⟩ 0
      = some (⟨[(0, .nd true 0 0 []), (1, .nd true 0 1 [])], 2⟩, 1) ∧
    parentOf ⟨[(0, .nd true 0 0 []), (1, .nd true 0 1 [])], 2⟩ 1 = some 1 ∧
    parentOf ⟨[(0, .nd true 0 0 []), (1, .nd true 0 1 [])], 2⟩ 0 = some 0 ∧
    (1 : Nat) ≠ 0 :=
  ⟨rfl, rfl, rfl, by decide⟩

/-- Claim C9 amended: for a base-class `NestedDict`, `copy` returns a fresh
object of the same class with the same depth, the same shared parent address
and value-equal entries; for a `TopNestedDict` the constructor ignores the
passed parent and depth, so the copy is its own parent at depth 0; a
nested-dict entry value is copied recursively to a fresh address holding a
value-equal dict (same class, depth, parent and entries), so the copy shares
no nested dict with the original; and other nested mutable containers are
deep-copied to fresh addresses with equal contents rather than shared. -/
theorem c9_amended_copy_semantics :
    (∀ (d p : Nat) (entries : List (String × String)) (h : Heap) (a fuel : Nat),
       entries.length + 1 ≤ fuel →
       dlookup h.objs h.next = none →
       hget h a = some (.nd false d p (entries.map (fun kv => (kv.1, PyVal.prim kv.2)))) →
       ndCopy (fuel + 1) h a
         = some (⟨h.objs ++
             [(h.next, .nd false d p (entries.map (fun kv => (kv.1, PyVal.prim kv.2))))],
             h.next + 1⟩, h.next) ∧ a ≠ h.next) ∧
    (∀ (d p : Nat) (entries : List (String × String)) (h : Heap) (a fuel : Nat),
       entries.length + 1 ≤ fuel →
       dlookup h.objs h.next = none →
       hget h a = some (.nd true d p (entries.map (fun kv => (kv.1, PyVal.prim kv.2)))) →
       ndCopy (fuel + 1) h a
         = some (⟨h.objs ++
             [(h.next, .nd true 0 h.next (entries.map (fun kv => (kv.1, PyVal.prim kv.2))))],
             h.next + 1⟩, h.next) ∧ a ≠ h.next) ∧
    (∀ (d p cd cp : Nat) (k : String) (entries : List (String × String)) (h : Heap)
       (a b fuel : Nat),
       entries.length + 1 ≤ fuel →
       dlookup h.objs h.next = none →
       dlookup h.objs (h.next + 1) = none →
       hget h a = some (.nd false d p [(k, PyVal.ref b)]) →
       hget h b = some (.nd false cd cp (entries.map (fun kv => (kv.1, PyVal.prim kv.2)))) →
       ndCopy (fuel + 4) h a
         = some (⟨h.objs ++
             [(h.next, .nd false d p [(k, PyVal.ref (h.next + 1))]),
              (h.next + 1, .nd false cd cp (entries.map (fun kv => (kv.1, PyVal.prim kv.2))))],
             h.next + 2⟩, h.next)
         ∧ h.next ≠ a ∧ h.next + 1 ≠ b) ∧
    (ndCopy 5 ⟨[(0, .nd false 1 5 [("d", .ref 1)]), (1, .box "deps")], 2⟩ 0
       = some (⟨[(0, .nd false 1 5 [("d", .ref 1)]), (1, .box "deps"),
                 (2, .nd false 1 5 [("d", .ref 3)]), (3, .box "deps")], 4⟩, 2) ∧
     (3 : Nat) ≠ 1) := by
  refine ⟨?_, ?_, ?_, ?_, by decide⟩
  · intro d p entries h a fuel hfuel hfresh hga
    have hane : a ≠ h.next := by
      intro he
      rw [he] at hga
      rw [hget] at hga
      rw [hfresh] at hga
      cases hga
    refine ⟨?_, hane⟩
    simp only [ndCopy, hget] at *
    rw [hga]
    simp only [halloc]
    rw [copyEntries_prim entries fuel _ hfuel]
    simp only [hset]
    rw [dset_append_fresh h.objs h.next _ _ hfresh]
    simp
  · intro d p entries h a fuel hfuel hfresh hga
    have hane : a ≠ h.next := by
      intro he
      rw [he] at hga
      rw [hget] at hga
      rw [hfresh] at hga
      cases hga
    refine ⟨?_, hane⟩
    simp only [ndCopy, hget] at *
    rw [hga]
    simp only [halloc]
    rw [copyEntries_prim entries fuel _ hfuel]
    simp only [hset]
    rw [dset_append_fresh h.objs h.next _ _ hfresh]
    simp
  · intro d p cd cp k entries h a b fuel hfuel hf1 hf2 hga hgb
    have hna : h.next ≠ a := by
      intro he
      rw [← he] at hga
      rw [hget] at hga
      rw [hf1] at hga
      cases hga
    have hnb : h.next + 1 ≠ b := by
      intro he
      rw [← he] at hgb
      rw [hget] at hgb
      rw [hf2] at hgb
      cases hgb
    refine ⟨?_, hna, hnb⟩
    have hgb1 : hget ⟨h.objs ++ [(h.next, PyObj.nd false 0 0 [])], h.next + 1⟩ b
        = some (PyObj.nd false cd cp (entries.map (fun kv => (kv.1, PyVal.prim kv.2)))) := by
      rw [hget] at hgb ⊢
      exact dlookup_append_some _ _ _ _ hgb
    have hfr1 : dlookup (h.objs ++ [(h.next, PyObj.nd false 0 0 [])]) (h.next + 1) = none := by
      rw [dlookup_append_none _ _ _ hf2]
      simp only [dlookup]
      rw [if_neg (by omega)]
    have hchild : ndCopy (fuel + 1) ⟨h.objs ++ [(h.next, PyObj.nd false 0 0 [])], h.next + 1⟩ b
        = some (⟨(h.objs ++ [(h.next, PyObj.nd false 0 0 [])])
              ++ [(h.next + 1,
                   PyObj.nd false cd cp (entries.map (fun kv => (kv.1, PyVal.prim kv.2))))],
            h.next + 2⟩, h.next + 1) := by
      simp only [ndCopy, hgb1, halloc]
      rw [copyEntries_prim entries fuel _ hfuel]
      simp only [hset]
      rw [dset_append_fresh _ (h.next + 1) _ _ hfr1]
      simp
    have hcv : copyVal (fuel + 2) ⟨h.objs ++ [(h.next, PyObj.nd false 0 0 [])], h.next + 1⟩
          (PyVal.ref b)
        = some (⟨(h.objs ++ [(h.next, PyObj.nd false 0 0 [])])
              ++ [(h.next + 1,
                   PyObj.nd false cd cp (entries.map (fun kv => (kv.1, PyVal.prim kv.2))))],
            h.next + 2⟩, PyVal.ref (h.next + 1)) := by
      simp only [copyVal, hgb1, hchild]
      rfl
    have hce : copyEntries (fuel + 3) ⟨h.objs ++ [(h.next, PyObj.nd false 0 0 [])], h.next + 1⟩
          [(k, PyVal.ref b)]
        = some (⟨(h.objs ++ [(h.next, PyObj.nd false 0 0 [])])
              ++ [(h.next + 1,
                   PyObj.nd false cd cp (entries.map (fun kv => (kv.1, PyVal.prim kv.2))))],
            h.next + 2⟩, [(k, PyVal.ref (h.next + 1))]) := by
      simp only [copyEntries, hcv]
    rw [show fuel + 4 = (fuel + 3) + 1 from rfl]
    simp only [ndCopy, hga, halloc, hce]
    simp only [hset]
    rw [List.append_assoc, List.singleton_append]
    rw [dset_append_mid h.objs h.next _ _ _ hf1]
    simp
  · rfl

/-- Claim C9 amended, witness: concrete base-class and top-level copies with
one scalar entry, and a concrete copy of a dict holding a nested-dict value,
with the child copied recursively to the fresh address 3. -/
theorem c9_amended_copy_witness :
    ndCopy 3 ⟨[(7, .nd false 2 4 [("k", PyVal.prim "v")])], 8⟩ 7
      = some (⟨[(7, .nd false 2 4 [("k", PyVal.prim "v")]),
                (8, .nd false 2 4 [("k", PyVal.prim "v")])], 9⟩, 8) ∧
    ndCopy 3 ⟨[(0, .nd true 0 0 [("k", PyVal.prim "v")])], 1⟩ 0
      = some (⟨[(0, .nd true 0 0 [("k", PyVal.prim "v")]),
                (1, .nd true 0 1 [("k", PyVal.prim "v")])], 2⟩, 1) ∧
    ndCopy 6 ⟨[(0, .nd false 1 5 [("c", PyVal.ref 1)]),
               (1, .nd false 2 0 [("k", PyVal.prim "v")])], 2⟩ 0
      = some (⟨[(0, .nd false 1 5 [("c", PyVal.ref 1)]),
                (1, .nd false 2 0 [("k", PyVal.prim "v")]),
                (2, .nd false 1 5 [("c", PyVal.ref 3)]),
                (3, .nd false 2 0 [("k", PyVal.prim "v")])], 4⟩, 2) :=
  ⟨(c9_amended_copy_semantics.1 2 4 [("k", "v")]
      ⟨[(7, .nd false 2 4 [("k", PyVal.prim "v")])], 8⟩ 7 2 (by decide) rfl rfl).1,
   (c9_amended_copy_semantics.2.1 0 0 [("k", "v")]
      ⟨[(0, .nd true 0 0 [("k", PyVal.prim "v")])], 1⟩ 0 2 (by decide) rfl rfl).1,
   (c9_amended_copy_semantics.2.2.1 1 5 2 0 "c" [("k", "v")]
      ⟨[(0, .nd false 1 5 [("c", PyVal.ref 1)]),
        (1, .nd false 2 0 [("k", PyVal.prim "v")])], 2⟩ 0 1 2
      (by decide) rfl rfl rfl rfl).1⟩

/-- Helper: the underlying line check only ever reports a `W291` message (a
trailing-whitespace violation on a non-blank line) or a `W293` message (a
whitespace-only line). -/
theorem trailing_whitespace_messages (pl : String) (a : Nat) (b : String)
    (h : trailing_whitespace pl = some (a, b)) :
    b = "W291 trailing whitespace" ∨ b = "W293 whitespace on blank line" := by
  simp only [trailing_whitespace] at h
  split_ifs at h with h1 h2
  · simp only [Option.some.injEq, Prod.mk.injEq] at h
    exact Or.inl h.2.symm
  · simp only [Option.some.injEq, Prod.mk.injEq] at h
    exact Or.inr h.2.symm

/-- Claim C10 counterexample, refuting two clauses of the claim.  First, on a
whitespace-only line preceded by a non-description assignment, the check
reports a violation whose code is the `W293` of the underlying check — passed
through untouched — not `W299`.  Second, on a trailing-whitespace assignment
line whose nearest *preceding* assignment line is a `description`, the claim
demands no violation, yet the check reports `W299`: the backward scan over
`lines[0:line_number]` starts at the current line itself, which is the first
assignment match. -/
theorem c10_counterexample_blank_line_keeps_w293 :
    (eb_check_trailing_whitespace " \t\n" ["x = 1\n", " \t\n"] 2 2
       = some (0, "W293 whitespace on blank line") ∧
     "W293 whitespace on blank line" ≠ "W299 trailing whitespace") ∧
    (eb_check_trailing_whitespace "x = 1  \n" ["description = y\n", "x = 1  \n"] 2 2
       = some (5, "W299 trailing whitespace") ∧
     keyOf "description = y\n" = some "description") :=
  ⟨⟨rfl, by decide⟩, ⟨rfl, rfl⟩⟩

/-- Claim C10 amended: the check returns no violation for any physical line
whose first non-whitespace character is `#`; it returns no violation when the
first key-assignment line found scanning backwards from the current line
(inclusive) has key `description`; and any violation it does report carries
either code `W299` (trailing whitespace on a non-blank line, renamed from
`W291`) or code `W293` (whitespace-only line, passed through) — never
`W291`. -/
theorem c10_amended_check_behaviour :
    (∀ (pl : String) (lines : List String) (n t : Nat),
       isCommentLine pl = true → eb_check_trailing_whitespace pl lines n t = none) ∧
    (∀ (pl : String) (lines : List String) (n t : Nat),
       (lines.take n).reverse.findSome? keyOf = some "description" →
       eb_check_trailing_whitespace pl lines n t = none) ∧
    (∀ (pl : String) (lines : List String) (n t off : Nat) (msg : String),
       eb_check_trailing_whitespace pl lines n t = some (off, msg) →
       msg = "W299 trailing whitespace" ∨ msg = "W293 whitespace on blank line") := by
  refine ⟨?_, ?_, ?_⟩
  · intro pl lines n t hc
    simp [eb_check_trailing_whitespace, hc]
  · intro pl lines n t hd
    cases hc : isCommentLine pl
    · simp [eb_check_trailing_whitespace, hc, hd]
    · simp [eb_check_trailing_whitespace, hc]
  · intro pl lines n t off msg hres
    cases hc : isCommentLine pl
    · simp only [eb_check_trailing_whitespace, hc, Bool.false_eq_true, if_false] at hres
      cases htw : trailing_whitespace pl with
      | none =>
        rw [htw] at hres
        simp only [Option.map_none'] at hres
        split at hres
        · split at hres
          · cases hres
          · cases hres
        · cases hres
      | some p =>
        obtain ⟨ta, tb⟩ := p
        rw [htw] at hres
        simp only [Option.map_some'] at hres
        have hmsg : msg = String.mk (replaceW291 tb.toList) := by
          split at hres
          · split at hres
            · cases hres
            · simp only [Option.some.injEq, Prod.mk.injEq] at hres
              exact hres.2.symm
          · simp only [Option.some.injEq, Prod.mk.injEq] at hres
            exact hres.2.symm
        rcases trailing_whitespace_messages pl ta tb htw with hb | hb <;> subst hb <;> rw [hmsg]
        · exact Or.inl (by decide)
        · exact Or.inr (by decide)
    · rw [eb_check_trailing_whitespace, if_pos hc] at hres
      cases hres

/-- Claim C10 amended, witness: a comment line yields no violation; a
trailing-whitespace continuation right after a `description` assignment
yields no violation; and a concrete reported violation carries `W299`. -/
theorem c10_amended_check_witness :
    eb_check_trailing_whitespace "# c \n" ["# c \n"] 1 1 = none ∧
    eb_check_trailing_whitespace "line two \n" ["description = x\n", "line two \n"] 2 2 = none ∧
    ("W299 trailing whitespace" = "W299 trailing whitespace" ∨
     "W299 trailing whitespace" = "W293 whitespace on blank line") :=
  ⟨c10_amended_check_behaviour.1 "# c \n" ["# c \n"] 1 1 rfl,
   c10_amended_check_behaviour.2.1 "line two \n" ["description = x\n", "line two \n"] 2 2 rfl,
   c10_amended_check_behaviour.2.2 "x = 1 \n" ["x = 1 \n"] 1 1 5 "W299 trailing whitespace" rfl⟩

/-- Claim C1: with `DEFAULT = {a: 1}` and one sibling section gated `> 2.0`
containing `{a: 2}`, parse merges the `DEFAULT` entries flat into the tree
root, squash for version 2.5 resolves `a` to `2` (the matching branch
overrides the hoisted default), and squash for version 1.0 resolves `a` to
`1` (the non-matching branch leaves the default in force). -/
theorem c1_default_hoist_and_predicate_override :
    (cfg1.map (fun c => dlookup c.sections (.str "a")) = .ok (some (.val (.str "1")))) ∧
    ((cfg1.bind (fun c => squash 10 c "gcc" [] [2, 5])).map (fun r => dlookup r (.str "a"))
       = .ok (some (Value.str "2"))) ∧
    ((cfg1.bind (fun c => squash 10 c "gcc" [] [1, 0])).map (fun r => dlookup r (.str "a"))
       = .ok (some (Value.str "1"))) :=
  ⟨rfl, rfl, rfl⟩

/-- Claim C2: with sibling sections gated `> 1.0` (`{x: 1}`) and `> 2.0`
(`{x: 2}`), squash for version 3.0 resolves `x` to `2`: the accumulated data
of matching version predicates is merged least specific first, so the most
specific predicate wins on the key collision. -/
theorem c2_most_specific_predicate_wins :
    ((cfg2.bind (fun c => squash 10 c "gcc" [] [3, 0])).map (fun r => dlookup r (.str "x"))
       = .ok (some (Value.str "2"))) ∧
    (vopSubset ⟨.gt, [2, 0]⟩ ⟨.gt, [1, 0]⟩ = true) :=
  ⟨rfl, rfl⟩

/-- Claim C5 counterexample: in a document where a `DEPENDENCIES` section sits
one level inside the section gated `> 1.0`, the parsed dependency list does
not land on the `> 1.0` node (which stays empty) but on the tree root — the
`parent` back-reference of every nested dict is the root, not the enclosing
level. -/
theorem c5_counterexample_deps_escape_to_root :
    cfg5.map (fun c =>
        (dlookup c.sections (.vop ⟨.gt, [1, 0]⟩), dlookup c.sections (.str "dependencies")))
      = .ok (some (.tree []),
             some (.val (.deps [⟨some "foo", some "1.2"⟩]))) :=
  rfl

/-- Claim C5 amended: a `DEPENDENCIES` section nested inside a predicate
section attaches its dependency list to the parent back-reference of the
current node, which is always the tree root (so the list is not gated by the
predicate); only a `DEPENDENCIES` section at the document root stores the
list in the model default bucket (`DEFAULT`). -/
theorem c5_amended_deps_attach_to_root :
    (cfg5.map (fun c => dlookup c.sections (.str "dependencies"))
       = .ok (some (.val (.deps [⟨some "foo", some "1.2"⟩])))) ∧
    (cfg5.map (fun c => dlookup c.sections (.vop ⟨.gt, [1, 0]⟩)) = .ok (some (.tree []))) ∧
    (cfg5b.map (fun c => dlookup c.default (.str "dependencies"))
       = .ok (some (.val (.deps [⟨some "bar", some "2.0"⟩])))) :=
  ⟨rfl, rfl, rfl⟩

/-- Claim C6 counterexample: over the heap, a squash of a level whose
`dependencies` entry references the container at address 1 returns a mapping
holding that same address — the result aliases the container value stored in
the model's tree (and a second identical call returns the same reference), so
the non-aliasing clause of the claim is false. -/
theorem c6_counterexample_result_aliases_model :
    squashFlatGo "gcc" [4, 0] [1, 0] ⟨ovoEmpty, []⟩ h6 secs6 []
      = .ok (h6, ⟨ovoEmpty, []⟩, [(NKey.str "dependencies", HVal.pv (PyVal.ref 1))]) ∧
    dlookup secs6 (NKey.str "dependencies") = some (HVal.pv (PyVal.ref 1)) ∧
    hget h6 1 = some (PyObj.box "parsed dependency list") :=
  ⟨rfl, rfl, rfl⟩

/-- Claim C6 amended: a squash call leaves the model's heap unchanged; a
second call with identical arguments, run on the heap state the first call
returns, yields the identical outcome; a later call with any arguments is
unaffected by an earlier call; but the returned mapping is not free of
aliasing — a plain entry is stored in the result by reference, so the result
holds the very reference the model's tree stores. -/
theorem c6_amended_pure_values_aliased_containers :
    (∀ (tcn : String) (tcv ver : EVersion) (sanity : Sanity) (h : Heap)
       (entries res : List (NKey × HVal)) (out : Heap × Sanity × List (NKey × HVal)),
       squashFlatGo tcn tcv ver sanity h entries res = .ok out → out.1 = h) ∧
    (∀ (tcn : String) (tcv ver : EVersion) (sanity s1 : Sanity) (h h1 : Heap)
       (entries r1 : List (NKey × HVal)),
       squashFlatGo tcn tcv ver sanity h entries [] = .ok (h1, s1, r1) →
       squashFlatGo tcn tcv ver sanity h1 entries [] = .ok (h1, s1, r1)) ∧
    (∀ (tcn tcn2 : String) (tcv ver tcv2 ver2 : EVersion) (sanity san2 s1 : Sanity)
       (h h1 : Heap) (entries entries2 r1 res2 : List (NKey × HVal)),
       squashFlatGo tcn tcv ver sanity h entries [] = .ok (h1, s1, r1) →
       squashFlatGo tcn2 tcv2 ver2 san2 h1 entries2 res2
         = squashFlatGo tcn2 tcv2 ver2 san2 h entries2 res2) ∧
    (∀ (tcn : String) (tcv ver : EVersion) (sanity : Sanity) (h : Heap)
       (pre : List (NKey × HVal)) (k : NKey) (a : Nat),
       (∀ kv ∈ pre, isHeapScalar kv = true) →
       k ≠ NKey.str "toolchains" → k ≠ NKey.str "versions" →
       ∃ r, squashFlatGo tcn tcv ver sanity h (pre ++ [(k, HVal.pv (PyVal.ref a))]) []
           = .ok (h, sanity, r) ∧ dlookup r k = some (HVal.pv (PyVal.ref a))) := by
  refine ⟨?_, ?_, ?_, ?_⟩
  · intro tcn tcv ver sanity h entries res out hout
    exact squashFlatGo_heap_unchanged tcn tcv ver entries sanity h res out hout
  · intro tcn tcv ver sanity s1 h h1 entries r1 hrun
    have hh : h1 = h :=
      squashFlatGo_heap_unchanged tcn tcv ver entries sanity h [] (h1, s1, r1) hrun
    subst hh
    exact hrun
  · intro tcn tcn2 tcv ver tcv2 ver2 sanity san2 s1 h h1 entries entries2 r1 res2 hrun
    have hh : h1 = h :=
      squashFlatGo_heap_unchanged tcn tcv ver entries sanity h [] (h1, s1, r1) hrun
    rw [hh]
  · intro tcn tcv ver sanity h pre k a hpre hk1 hk2
    have hall : ∀ kv ∈ pre ++ [(k, HVal.pv (PyVal.ref a))], isHeapScalar kv = true := by
      intro kv hkv
      rcases List.mem_append.1 hkv with hmem | hmem
      · exact hpre kv hmem
      · rcases List.mem_singleton.1 hmem with rfl
        simp [isHeapScalar, hk1, hk2]
    refine ⟨(pre ++ [(k, HVal.pv (PyVal.ref a))]).foldl (fun r kv => dset r kv.1 kv.2) [], ?_, ?_⟩
    · exact squashFlatGo_plain tcn tcv ver (pre ++ [(k, HVal.pv (PyVal.ref a))]) sanity h [] hall
    · rw [List.foldl_append]
      exact dlookup_dset_self _ k (HVal.pv (PyVal.ref a))

/-- Claim C6 amended, witness: on the concrete dependencies model, the heap
is preserved, the repeated call returns the identical mapping, and the result
holds the model tree's own reference. -/
theorem c6_amended_pure_values_witness :
    h6 = h6 ∧
    squashFlatGo "gcc" [4, 0] [1, 0] ⟨ovoEmpty, []⟩ h6 secs6 []
      = .ok (h6, ⟨ovoEmpty, []⟩, [(NKey.str "dependencies", HVal.pv (PyVal.ref 1))]) ∧
    ∃ r, squashFlatGo "gcc" [4, 0] [1, 0] ⟨ovoEmpty, []⟩ h6 secs6 []
        = .ok (h6, ⟨ovoEmpty, []⟩, r) ∧
      dlookup r (NKey.str "dependencies") = some (HVal.pv (PyVal.ref 1)) :=
  ⟨c6_amended_pure_values_aliased_containers.1 "gcc" [4, 0] [1, 0] ⟨ovoEmpty, []⟩ h6 secs6 []
      (h6, ⟨ovoEmpty, []⟩, [(NKey.str "dependencies", HVal.pv (PyVal.ref 1))]) rfl,
   c6_amended_pure_values_aliased_containers.2.1 "gcc" [4, 0] [1, 0] ⟨ovoEmpty, []⟩
      ⟨ovoEmpty, []⟩ h6 h6 secs6 [(NKey.str "dependencies", HVal.pv (PyVal.ref 1))] rfl,
   c6_amended_pure_values_aliased_containers.2.2.2 "gcc" [4, 0] [1, 0] ⟨ovoEmpty, []⟩ h6 []
      (NKey.str "dependencies") 1 (by decide) (by decide) (by decide)⟩

/-- Claim C7 counterexample: a document without any `SUPPORTED` content
parses successfully into a model whose supported section has neither a
`versions` nor a `toolchains` list — parse performs no presence or
non-emptiness validation. -/
theorem c7_counterexample_parse_accepts_missing_supported :
    ∃ cfg, parse 10 ([] : List (String × CVal)) = .ok cfg ∧
      dlookup cfg.supported (.str "versions") = none ∧
      dlookup cfg.supported (.str "toolchains") = none :=
  ⟨⟨[], [], []⟩, rfl, rfl, rfl⟩

/-- Claim C3 counterexample: `doc3` contains two sibling version predicates
(`> 1.0` and `< 2.0`) whose ranges are ambiguous under the store's insertion
rule, yet parse succeeds and squash for a request that does not match the
enclosing toolchain gate returns a result without raising any error — the
conflicting siblings sit in a skipped branch and are never registered. -/
theorem c3_counterexample_conflict_in_skipped_branch :
    vopConflict ⟨.lt, [2, 0]⟩ ⟨.gt, [1, 0]⟩ = true ∧
    cfg3.bind (fun c => squash 10 c "intel" [1, 0] [1, 5]) = .ok [] :=
  ⟨rfl, rfl⟩

/-- Claim C3 amended: two sibling predicates over the same dimension — two
plain version markers, or two toolchain markers with the same toolchain name
— whose ranges are ambiguous make squash raise the range conflict, propagated
unchanged from the ordered store with no partial result, whenever both
siblings are actually registered during the walk: the level is reached with
that dimension's conflict store still empty (as at the start of a resolve),
the level entries before and between the siblings are plain scalars (so no
preceding gate discards the level and nothing fails earlier), and a matching
first sibling's subtree resolves without error (here: plain scalars).  The
entries after the second sibling and its subtree are arbitrary.  Siblings a
skipped non-matching branch hides, or a level a preceding non-matching
`versions`/`toolchains` gate discards, are never registered and raise
nothing. -/
theorem c3_amended_conflict_when_registered :
    (∀ (fuel : Nat) (tcn : String) (tcv ver : EVersion) (sanity : Sanity)
       (pre mid t1 t2 rest : List (NKey × NTree)) (v1 v2 : VersionOperator),
       sanity.versops = ovoEmpty →
       (∀ kv ∈ pre, isPlainScalar kv = true) →
       (∀ kv ∈ mid, isPlainScalar kv = true) →
       (∀ kv ∈ t1, isPlainScalar kv = true) →
       vopConflict v2 v1 = true →
       squashLevel (fuel + 2) tcn tcv ver sanity
         (pre ++ (NKey.vop v1, NTree.tree t1) :: mid ++ (NKey.vop v2, NTree.tree t2) :: rest)
         = .error (.rangeConflict v2 v1)) ∧
    (∀ (fuel : Nat) (tcn : String) (tcv ver : EVersion) (sanity : Sanity)
       (pre mid t1 t2 rest : List (NKey × NTree)) (name : String) (p1 p2 : VersionOperator),
       dlookup sanity.toolchains name = none →
       (∀ kv ∈ pre, isPlainScalar kv = true) →
       (∀ kv ∈ mid, isPlainScalar kv = true) →
       (∀ kv ∈ t1, isPlainScalar kv = true) →
       vopConflict p2 p1 = true →
       squashLevel (fuel + 2) tcn tcv ver sanity
         (pre ++ (NKey.tcop ⟨name, p1⟩, NTree.tree t1) :: mid
            ++ (NKey.tcop ⟨name, p2⟩, NTree.tree t2) :: rest)
         = .error (.rangeConflict p2 p1)) := by
  constructor
  · intro fuel tcn tcv ver sanity pre mid t1 t2 rest v1 v2 hemp hpre hmid ht1 hconf
    show squashGo (squashLevel (fuel + 1) tcn tcv ver) tcn tcv ver sanity
        (pre ++ (NKey.vop v1, NTree.tree t1) :: mid ++ (NKey.vop v2, NTree.tree t2) :: rest)
        ovoEmpty [] [] = .error (.rangeConflict v2 v1)
    obtain ⟨res1, heq⟩ :=
      squashGo_plain_prefix tcn tcv ver (squashLevel (fuel + 1) tcn tcv ver) pre
        ((NKey.vop v1, NTree.tree t1) :: mid ++ (NKey.vop v2, NTree.tree t2) :: rest)
        sanity ovoEmpty [] [] hpre
    simp only [List.append_assoc, List.cons_append] at heq ⊢
    rw [heq]
    have hs1 : ((⟨⟨[v1], [(v1, [])]⟩, sanity.toolchains⟩ : Sanity) : Sanity).versops.versops = [v1] := rfl
    have hlev : squashLevel (fuel + 1) tcn tcv ver ⟨⟨[v1], [(v1, [])]⟩, sanity.toolchains⟩ t1
        = squashGo (squashLevel fuel tcn tcv ver) tcn tcv ver
            ⟨⟨[v1], [(v1, [])]⟩, sanity.toolchains⟩ t1 ovoEmpty [] [] := rfl
    obtain ⟨r1, hr1⟩ := squashGo_plain_level tcn tcv ver (squashLevel fuel tcn tcv ver) t1
      ⟨⟨[v1], [(v1, [])]⟩, sanity.toolchains⟩ ovoEmpty [] [] ht1
    cases hv : vopTest v1 ver with
    | false =>
      simp [squashGo, squashStep, bind, Except.bind, ovoAdd, hemp, memq, ovoInsert,
        dset, ovoEmpty, hv]
      exact squashGo_version_conflict_tail tcn tcv ver _ v1 v2 hconf mid t2 rest
        _ _ _ _ hs1 hmid
    | true =>
      simp only [ovoEmpty] at hr1
      simp [squashGo, squashStep, bind, Except.bind, ovoAdd, hemp, memq, ovoInsert,
        dset, ovoEmpty, hv, hlev, hr1, foldOversops, List.foldlM, pure, Except.pure]
      exact squashGo_version_conflict_tail tcn tcv ver _ v1 v2 hconf mid t2 rest
        _ _ _ _ hs1 hmid
  · intro fuel tcn tcv ver sanity pre mid t1 t2 rest name p1 p2 hnone hpre hmid ht1 hconf
    show squashGo (squashLevel (fuel + 1) tcn tcv ver) tcn tcv ver sanity
        (pre ++ (NKey.tcop ⟨name, p1⟩, NTree.tree t1) :: mid
           ++ (NKey.tcop ⟨name, p2⟩, NTree.tree t2) :: rest)
        ovoEmpty [] [] = .error (.rangeConflict p2 p1)
    obtain ⟨res1, heq⟩ :=
      squashGo_plain_prefix tcn tcv ver (squashLevel (fuel + 1) tcn tcv ver) pre
        ((NKey.tcop ⟨name, p1⟩, NTree.tree t1) :: mid
           ++ (NKey.tcop ⟨name, p2⟩, NTree.tree t2) :: rest)
        sanity ovoEmpty [] [] hpre
    simp only [List.append_assoc, List.cons_append] at heq ⊢
    rw [heq]
    have hs1 : ((dlookup
          ((⟨sanity.versops, dset sanity.toolchains name ⟨[p1], [(p1, [])]⟩⟩ : Sanity)).toolchains
          name).getD ovoEmpty).versops = [p1] := by
      simp [dlookup_dset_self]
    have hlev : squashLevel (fuel + 1) tcn tcv ver
          ⟨sanity.versops, dset sanity.toolchains name ⟨[p1], [(p1, [])]⟩⟩ t1
        = squashGo (squashLevel fuel tcn tcv ver) tcn tcv ver
            ⟨sanity.versops, dset sanity.toolchains name ⟨[p1], [(p1, [])]⟩⟩ t1
            ovoEmpty [] [] := rfl
    obtain ⟨r1, hr1⟩ := squashGo_plain_level tcn tcv ver (squashLevel fuel tcn tcv ver) t1
      ⟨sanity.versops, dset sanity.toolchains name ⟨[p1], [(p1, [])]⟩⟩ ovoEmpty [] [] ht1
    cases hv : tcopTest ⟨name, p1⟩ tcn tcv with
    | false =>
      simp [squashGo, squashStep, bind, Except.bind, hnone, ovoAdd,
        ovoEmpty, memq, ovoInsert, dset, hv]
      exact squashGo_toolchain_conflict_tail tcn tcv ver _ name p1 p2 hconf mid t2 rest
        _ _ _ _ hs1 hmid
    | true =>
      simp only [ovoEmpty] at hr1
      simp [squashGo, squashStep, bind, Except.bind, hnone, ovoAdd,
        ovoEmpty, memq, ovoInsert, dset, hv, hlev, hr1, foldOversops, List.foldlM,
        pure, Except.pure]
      exact squashGo_toolchain_conflict_tail tcn tcv ver _ name p1 p2 hconf mid t2 rest
        _ _ _ _ hs1 hmid

/-- Claim C3 amended, witness: a version-marker sibling pair around a plain
scalar, and a same-name toolchain-marker sibling pair, each raise the range
conflict on a concrete visited level. -/
theorem c3_amended_conflict_witness :
    vopConflict ⟨.lt, [2, 0]⟩ ⟨.gt, [1, 0]⟩ = true ∧
    squashLevel 3 "gcc" [] [1, 5] ⟨ovoEmpty, []⟩
        [(NKey.str "pre", NTree.val (Value.str "s")),
         (NKey.vop ⟨.gt, [1, 0]⟩, NTree.tree [(NKey.str "y", NTree.val (Value.str "1"))]),
         (NKey.str "mid", NTree.val (Value.str "m")),
         (NKey.vop ⟨.lt, [2, 0]⟩, NTree.tree [(NKey.str "y", NTree.val (Value.str "2"))])]
      = .error (.rangeConflict ⟨.lt, [2, 0]⟩ ⟨.gt, [1, 0]⟩) ∧
    squashLevel 3 "gcc" [6, 0] [1, 5] ⟨ovoEmpty, []⟩
        [(NKey.tcop ⟨"gcc", ⟨.gt, [1, 0]⟩⟩,
            NTree.tree [(NKey.str "y", NTree.val (Value.str "1"))]),
         (NKey.tcop ⟨"gcc", ⟨.lt, [2, 0]⟩⟩,
            NTree.tree [(NKey.str "y", NTree.val (Value.str "2"))])]
      = .error (.rangeConflict ⟨.lt, [2, 0]⟩ ⟨.gt, [1, 0]⟩) :=
  ⟨rfl,
   c3_amended_conflict_when_registered.1 1 "gcc" [] [1, 5] ⟨ovoEmpty, []⟩
      [(NKey.str "pre", NTree.val (Value.str "s"))]
      [(NKey.str "mid", NTree.val (Value.str "m"))]
      [(NKey.str "y", NTree.val (Value.str "1"))]
      [(NKey.str "y", NTree.val (Value.str "2"))] []
      ⟨.gt, [1, 0]⟩ ⟨.lt, [2, 0]⟩ rfl (by decide) (by decide) (by decide) rfl,
   c3_amended_conflict_when_registered.2 1 "gcc" [6, 0] [1, 5] ⟨ovoEmpty, []⟩
      [] []
      [(NKey.str "y", NTree.val (Value.str "1"))]
      [(NKey.str "y", NTree.val (Value.str "2"))] []
      "gcc" ⟨.gt, [1, 0]⟩ ⟨.lt, [2, 0]⟩ rfl (by decide) (by decide) (by decide) rfl⟩

/-- Claim C7 amended: parse only validates that the `SUPPORTED` section
contains no key other than `versions`/`toolchains` (any other key is fatal);
it does not require either key to be present or non-empty, so a document
omitting both parses successfully with an empty supported section. -/
theorem c7_amended_supported_key_validation_only :
    (parse 10 [("SUPPORTED", CVal.sec [("foo", CVal.str "1")])]
       = .error (.structural "Unsupported key in SUPPORTED section")) ∧
    (parse 10 [("SUPPORTED", CVal.sec [])] = .ok ⟨[], [], []⟩) :=
  ⟨rfl, rfl⟩

end EBFormat
